import Mathlib

/-! Real48: a 48-bit floating-point storage format.

Shallow embedding of `real48.hpp` / `real48.cpp` (namespace `math`).

* Native `float` / `double` values are represented by their IEEE-754 bit
  patterns (`Nat`, below `2^32` resp. `2^64`); this is what the source obtains
  with `std::memcpy` before it does anything else with a normal input.
* Machine integers are `Nat` / `Int` with an explicit `% 2^w` wherever the
  source converts or stores into a narrower type.
* The bit-field struct `DataPack` is a record of three naturals; a store into a
  bit-field of width `w` is `% 2^w`.
* `throw std::overflow_error(msg)` is `Except.error`, one constructor of
  `OverflowError` per message.
* The host operators on `float` / `double` that the binary operators, the
  comparisons and the fuzz harness use are IEEE-754 operations on bit patterns
  (`FpFormat`), rounding to nearest with ties to even.
-/

namespace math

/-! ## Host floating point: bit patterns, classification, value -/

/-- The categories `std::fpclassify` can return. -/
inductive FpClass where
  | FP_NAN
  | FP_INFINITE
  | FP_ZERO
  | FP_SUBNORMAL
  | FP_NORMAL
deriving DecidableEq, Repr

/-- Sign bit of a binary32 bit pattern. -/
def float_sign (bits : Nat) : Nat := (bits >>> 31) &&& 1

/-- Biased exponent field (8 bits) of a binary32 bit pattern. -/
def float_exponent (bits : Nat) : Nat := (bits >>> 23) &&& 0xFF

/-- Fraction field (23 bits) of a binary32 bit pattern. -/
def float_fraction (bits : Nat) : Nat := bits &&& 0x7FFFFF

/-- Sign bit of a binary64 bit pattern. -/
def double_sign (bits : Nat) : Nat := (bits >>> 63) &&& 1

/-- Biased exponent field (11 bits) of a binary64 bit pattern. -/
def double_exponent (bits : Nat) : Nat := (bits >>> 52) &&& 0x7FF

/-- Fraction field (52 bits) of a binary64 bit pattern. -/
def double_fraction (bits : Nat) : Nat := bits &&& 0xFFFFFFFFFFFFF

/-- The instance `classify_ieee<float>`: the source forwards to the host's
`std::fpclassify`, which for IEEE-754 binary32 is decided by the exponent and
fraction fields as below. -/
def classify_ieee_float (value : Nat) : FpClass :=
  if float_exponent value = 0xFF then
    (if float_fraction value = 0 then FpClass.FP_INFINITE else FpClass.FP_NAN)
  else if float_exponent value = 0 then
    (if float_fraction value = 0 then FpClass.FP_ZERO else FpClass.FP_SUBNORMAL)
  else FpClass.FP_NORMAL

/-- The instance `classify_ieee<double>`: `std::fpclassify` on IEEE-754
binary64. -/
def classify_ieee_double (value : Nat) : FpClass :=
  if double_exponent value = 0x7FF then
    (if double_fraction value = 0 then FpClass.FP_INFINITE else FpClass.FP_NAN)
  else if double_exponent value = 0 then
    (if double_fraction value = 0 then FpClass.FP_ZERO else FpClass.FP_SUBNORMAL)
  else FpClass.FP_NORMAL

/-- Exact rational value of a finite binary64 bit pattern (IEEE-754):
`(-1)^s * (2^52 + f) * 2^(e - 1075)` for a normal pattern and
`(-1)^s * f * 2^(-1074)` when the exponent field is zero.  Only meaningful when
the exponent field is not `0x7FF`. -/
def double_value (bits : Nat) : ℚ :=
  let m : ℚ :=
    if double_exponent bits = 0 then (double_fraction bits : ℚ) * (2 : ℚ) ^ (-1074 : ℤ)
    else ((2 ^ 52 + double_fraction bits : Nat) : ℚ) * (2 : ℚ) ^ ((double_exponent bits : ℤ) - 1075)
  if double_sign bits = 1 then -m else m

/-- Exact rational value of a finite binary32 bit pattern (IEEE-754):
`(-1)^s * (2^23 + f) * 2^(e - 150)` for a normal pattern and
`(-1)^s * f * 2^(-149)` when the exponent field is zero.  Only meaningful when
the exponent field is not `0xFF`. -/
def float_value (bits : Nat) : ℚ :=
  let m : ℚ :=
    if float_exponent bits = 0 then (float_fraction bits : ℚ) * (2 : ℚ) ^ (-149 : ℤ)
    else ((2 ^ 23 + float_fraction bits : Nat) : ℚ) * (2 : ℚ) ^ ((float_exponent bits : ℤ) - 150)
  if float_sign bits = 1 then -m else m

/-! ## Host floating-point arithmetic

The operators `+`, `-`, `*`, `<`, `<=` and `std::fabs` on `float` / `double`
are the host's IEEE-754 operations (round to nearest, ties to even), given here
on bit patterns for a binary format with `ebits` exponent bits and `mbits`
fraction bits.  A finite pattern denotes `(-1)^sign * sig * 2^exp2`. -/

/-- An IEEE-754 binary format. -/
structure FpFormat where
  ebits : Nat
  mbits : Nat
deriving DecidableEq, Repr

/-- The format of `float`. -/
def binary32 : FpFormat := ⟨8, 23⟩

/-- The format of `double`. -/
def binary64 : FpFormat := ⟨11, 52⟩

namespace FpFormat

/-- Sign bit of a pattern. -/
def sign_of (F : FpFormat) (x : Nat) : Nat := (x >>> (F.ebits + F.mbits)) &&& 1

/-- Biased exponent field of a pattern. -/
def exponent_of (F : FpFormat) (x : Nat) : Nat := (x >>> F.mbits) &&& (2 ^ F.ebits - 1)

/-- Fraction field of a pattern. -/
def fraction_of (F : FpFormat) (x : Nat) : Nat := x &&& (2 ^ F.mbits - 1)

/-- Exponent bias. -/
def bias (F : FpFormat) : Int := 2 ^ (F.ebits - 1) - 1

/-- Binary exponent of the least significant fraction bit of a subnormal. -/
def qmin (F : FpFormat) : Int := 1 - F.bias - F.mbits

/-- Magnitude bits of an infinity: exponent all ones, fraction zero. -/
def inf_bits (F : FpFormat) : Nat := (2 ^ F.ebits - 1) * 2 ^ F.mbits

/-- A quiet NaN (the payload of a NaN result is not modelled further). -/
def qnan_bits (F : FpFormat) : Nat := F.inf_bits + 2 ^ (F.mbits - 1)

/-- Exponent all ones and a non-zero fraction. -/
def is_nan (F : FpFormat) (x : Nat) : Bool :=
  decide (F.exponent_of x = 2 ^ F.ebits - 1 ∧ F.fraction_of x ≠ 0)

/-- Exponent all ones and a zero fraction. -/
def is_inf (F : FpFormat) (x : Nat) : Bool :=
  decide (F.exponent_of x = 2 ^ F.ebits - 1 ∧ F.fraction_of x = 0)

/-- Integer significand: the fraction, with the implicit leading one when the
exponent field is not zero. -/
def sig (F : FpFormat) (x : Nat) : Nat :=
  if F.exponent_of x = 0 then F.fraction_of x else 2 ^ F.mbits + F.fraction_of x

/-- Binary exponent of the least significant bit of `sig`. -/
def exp2 (F : FpFormat) (x : Nat) : Int :=
  (if F.exponent_of x = 0 then 1 else (F.exponent_of x : Int)) - F.bias - F.mbits

/-- The value of `x` in units of `2^E` (an integer when `E ≤ exp2 x`). -/
def scaled (F : FpFormat) (x : Nat) (E : Int) : Int :=
  (if F.sign_of x = 1 then -1 else 1) * ((F.sig x * 2 ^ (F.exp2 x - E).toNat : Nat) : Int)

/-- Halving loop behind `ilog2`; `fuel` bounds the number of halvings. -/
def log2_fuel : Nat → Nat → Nat
  | 0, _ => 0
  | fuel + 1, n => if 2 ≤ n then log2_fuel fuel (n / 2) + 1 else 0

/-- Position of the leading one bit of `n`: the largest `L` with `2^L ≤ n`
(and `0` for `n = 0`). -/
def ilog2 (n : Nat) : Nat := log2_fuel n n

/-- Round `(-1)^s * M * 2^E` to the nearest pattern, ties to even; overflow
gives an infinity. -/
def round (F : FpFormat) (s : Nat) (M : Nat) (E : Int) : Nat :=
  if M = 0 then s * 2 ^ (F.ebits + F.mbits)
  else
    let L : Int := (ilog2 M : Int)
    let q : Int := Max.max (L + E - F.mbits) F.qmin
    let sg : Nat :=
      if q ≤ E then M * 2 ^ (E - q).toNat
      else
        let k : Nat := (q - E).toNat
        let t : Nat := M / 2 ^ k
        let rem : Nat := M % 2 ^ k
        let half : Nat := 2 ^ (k - 1)
        if rem > half ∨ (rem = half ∧ t % 2 = 1) then t + 1 else t
    let mag : Nat := (q - F.qmin).toNat * 2 ^ F.mbits + sg
    s * 2 ^ (F.ebits + F.mbits) + (if mag ≥ F.inf_bits then F.inf_bits else mag)

/-- Unary minus: flips the sign bit. -/
def neg (F : FpFormat) (x : Nat) : Nat :=
  if F.sign_of x = 1 then x - 2 ^ (F.ebits + F.mbits) else x + 2 ^ (F.ebits + F.mbits)

/-- The function `std::fabs`: clears the sign bit. -/
def fabs (F : FpFormat) (x : Nat) : Nat := x % 2 ^ (F.ebits + F.mbits)

/-- The operator `+`. -/
def add (F : FpFormat) (a b : Nat) : Nat :=
  if F.is_nan a ∨ F.is_nan b then F.qnan_bits
  else if F.is_inf a then
    (if F.is_inf b ∧ F.sign_of a ≠ F.sign_of b then F.qnan_bits else a)
  else if F.is_inf b then b
  else
    let E : Int := Min.min (F.exp2 a) (F.exp2 b)
    let sum : Int := F.scaled a E + F.scaled b E
    if sum = 0 then
      (if F.sign_of a = 1 ∧ F.sign_of b = 1 then 2 ^ (F.ebits + F.mbits) else 0)
    else F.round (if sum < 0 then 1 else 0) sum.natAbs E

/-- The operator `-`. -/
def sub (F : FpFormat) (a b : Nat) : Nat := F.add a (F.neg b)

/-- The operator `*`. -/
def mul (F : FpFormat) (a b : Nat) : Nat :=
  let s : Nat := (F.sign_of a + F.sign_of b) % 2
  if F.is_nan a ∨ F.is_nan b then F.qnan_bits
  else if F.is_inf a ∨ F.is_inf b then
    (if F.sig a = 0 ∨ F.sig b = 0 then F.qnan_bits
     else s * 2 ^ (F.ebits + F.mbits) + F.inf_bits)
  else F.round s (F.sig a * F.sig b) (F.exp2 a + F.exp2 b)

/-- The operator `<`: false when an operand is a NaN. -/
def lt (F : FpFormat) (a b : Nat) : Bool :=
  let E : Int := Min.min (F.exp2 a) (F.exp2 b)
  !F.is_nan a && !F.is_nan b && decide (F.scaled a E < F.scaled b E)

/-- The operator `<=`: false when an operand is a NaN. -/
def le (F : FpFormat) (a b : Nat) : Bool :=
  let E : Int := Min.min (F.exp2 a) (F.exp2 b)
  !F.is_nan a && !F.is_nan b && decide (F.scaled a E ≤ F.scaled b E)

/-- The operator `>`: false when an operand is a NaN. -/
def gt (F : FpFormat) (a b : Nat) : Bool :=
  let E : Int := Min.min (F.exp2 a) (F.exp2 b)
  !F.is_nan a && !F.is_nan b && decide (F.scaled a E > F.scaled b E)

end FpFormat

/-- Magnitude, in units of `2^-1075`, of the binary64 pattern with exponent
field `e` and fraction field `f`. -/
def double_units (e f : Nat) : Nat :=
  (if e = 0 then f else 2 ^ 52 + f) * 2 ^ (if e = 0 then 1 else e)

/-- The constant `std::numeric_limits<float>::epsilon()`, `2^-23`. -/
def float_epsilon : Nat := 0x34000000

/-- The constant `std::numeric_limits<double>::epsilon()`, `2^-52`. -/
def double_epsilon : Nat := 0x3CB0000000000000

/-! ## Errors -/

/-- The `std::overflow_error` exceptions thrown by the codec, one constructor
per message. -/
inductive OverflowError where
  /-- "Cannot represent NaN in Real48" -/
  | cannotRepresentNaN
  /-- "Cannot represent infinity in Real48" -/
  | cannotRepresentInfinity
  /-- "Unknown floating point class" -/
  | unknownClass
  /-- "Exponent out of range for Real48" -/
  | exponentOutOfRange
  /-- "Cannot represent in float" -/
  | cannotRepresentInFloat
deriving DecidableEq, Repr

/-- The message carried by the exception (`what()`). -/
def OverflowError.what : OverflowError → String
  | .cannotRepresentNaN => "Cannot represent NaN in Real48"
  | .cannotRepresentInfinity => "Cannot represent infinity in Real48"
  | .unknownClass => "Unknown floating point class"
  | .exponentOutOfRange => "Exponent out of range for Real48"
  | .cannotRepresentInFloat => "Cannot represent in float"

/-! ## The data model -/

/-- The packed bit-field struct: `exponent : 8`, `mantissa : 39`, `sign : 1`. -/
structure DataPack where
  exponent : Nat
  mantissa : Nat
  sign : Nat
deriving DecidableEq, Repr

/-- The class `Real48`: its only member is `data_`. -/
structure Real48 where
  data_ : DataPack
deriving DecidableEq, Repr

namespace Real48

/-- The values a `Real48` object can hold: every bit-field within its width. -/
def wf (r : Real48) : Prop :=
  r.data_.exponent < 2 ^ 8 ∧ r.data_.mantissa < 2 ^ 39 ∧ r.data_.sign < 2

instance (r : Real48) : Decidable r.wf := by
  unfold wf; infer_instance

/-- The default constructor `Real48() : data_ {0, 0, 0}`. -/
def Real48_default : Real48 := ⟨⟨0, 0, 0⟩⟩

/-- The constructor `Real48(const float number)`; `number` is the bit pattern. -/
def Real48_float (number : Nat) : Except OverflowError Real48 :=
  let cls := classify_ieee_float number
  if cls = FpClass.FP_NAN then Except.error OverflowError.cannotRepresentNaN
  else if cls = FpClass.FP_INFINITE then Except.error OverflowError.cannotRepresentInfinity
  else if cls = FpClass.FP_ZERO ∨ cls = FpClass.FP_SUBNORMAL then
    Except.ok ⟨⟨0 % 2 ^ 8, 0 % 2 ^ 39, 0 % 2⟩⟩
  else if cls ≠ FpClass.FP_NORMAL then Except.error OverflowError.unknownClass
  else
    let bits : Nat := number % 2 ^ 32
    let s32 : Nat := ((bits >>> 31) &&& 1) % 2 ^ 8
    let e32 : Int := (((bits >>> 23) &&& 0xFF : Nat) : Int)
    let f32 : Nat := bits &&& 0x7FFFFF
    let e48 : Int := e32 - 127 + 129
    if e48 < 1 ∨ e48 > 255 then Except.error OverflowError.exponentOutOfRange
    else
      let f48 : Nat := (f32 <<< 16) % 2 ^ 64
      Except.ok ⟨⟨(e48 % 2 ^ 8).toNat % 2 ^ 8, f48 % 2 ^ 39, s32 % 2⟩⟩

/-- The constructor `Real48(const double number)`; `number` is the bit pattern. -/
def Real48_double (number : Nat) : Except OverflowError Real48 :=
  let cls := classify_ieee_double number
  if cls = FpClass.FP_NAN then Except.error OverflowError.cannotRepresentNaN
  else if cls = FpClass.FP_INFINITE then Except.error OverflowError.cannotRepresentInfinity
  else if cls = FpClass.FP_ZERO ∨ cls = FpClass.FP_SUBNORMAL then
    Except.ok ⟨⟨0 % 2 ^ 8, 0 % 2 ^ 39, 0 % 2⟩⟩
  else if cls ≠ FpClass.FP_NORMAL then Except.error OverflowError.unknownClass
  else
    let bits : Nat := number % 2 ^ 64
    let s64 : Nat := ((bits >>> 63) &&& 1) % 2 ^ 8
    let e64 : Int := (((bits >>> 52) &&& 0x7FF : Nat) : Int)
    let f64 : Nat := bits &&& 0xFFFFFFFFFFFFF
    let e48 : Int := e64 - 1023 + 129
    if e48 < 1 ∨ e48 > 255 then Except.error OverflowError.exponentOutOfRange
    else
      let f48 : Nat := f64 >>> 13
      Except.ok ⟨⟨(e48 % 2 ^ 8).toNat % 2 ^ 8, f48 % 2 ^ 39, s64 % 2⟩⟩

/-- The conversion `operator float() const`; the result is a bit pattern
(`return 0.0f` is the all-zero pattern). -/
def operator_float (r : Real48) : Except OverflowError Nat :=
  let e48 : Nat := r.data_.exponent % 2 ^ 8
  if e48 = 0 then Except.ok 0
  else
    let f48 : Nat := r.data_.mantissa % 2 ^ 64
    let s48 : Nat := r.data_.sign % 2 ^ 8
    let e32 : Int := (e48 : Int) - 129 + 127
    if e32 < 1 ∨ e32 > 254 then Except.error OverflowError.cannotRepresentInFloat
    else
      let f32 : Nat := (f48 >>> 16) % 2 ^ 32
      let bits : Nat := 0
      let bits : Nat := bits ||| ((s48 % 2 ^ 32) <<< 31) % 2 ^ 32
      let bits : Nat := bits ||| ((e32 % 2 ^ 32).toNat <<< 23) % 2 ^ 32
      let bits : Nat := bits ||| (f32 &&& 0x7FFFFF)
      Except.ok bits

/-- The conversion `operator double() const noexcept`; the result is a bit
pattern (`return 0.0` is the all-zero pattern). -/
def operator_double (r : Real48) : Nat :=
  let e48 : Nat := r.data_.exponent % 2 ^ 8
  if e48 = 0 then 0
  else
    let f48 : Nat := r.data_.mantissa % 2 ^ 64
    let s48 : Nat := r.data_.sign % 2 ^ 8
    let e64 : Int := (e48 : Int) - 129 + 1023
    let f64 : Nat := (f48 <<< 13) % 2 ^ 64
    let bits : Nat := 0
    let bits : Nat := bits ||| ((s48 % 2 ^ 64) <<< 63) % 2 ^ 64
    let bits : Nat := bits ||| ((e64 % 2 ^ 64).toNat <<< 52) % 2 ^ 64
    let bits : Nat := bits ||| (f64 &&& 0xFFFFFFFFFFFFF)
    bits

/-- Unary `operator+() const noexcept`. -/
def operator_pos (r : Real48) : Real48 := r

/-- Unary `operator-() const noexcept`. -/
def operator_neg (r : Real48) : Real48 :=
  let result := r
  if result.data_.exponent = 0 then result
  else if result.data_.sign = 1 then
    { result with data_ := { result.data_ with sign := 0 % 2 } }
  else
    { result with data_ := { result.data_ with sign := 1 % 2 } }

/-- Binary `operator+(const Real48& o) const`. -/
def operator_add (a o : Real48) : Except OverflowError Real48 :=
  let a_val := a.operator_double
  let o_val := o.operator_double
  Real48_double (binary64.add a_val o_val)

/-- Binary `operator-(const Real48& o) const`. -/
def operator_sub (a o : Real48) : Except OverflowError Real48 :=
  let a_val := a.operator_double
  let o_val := o.operator_double
  Real48_double (binary64.sub a_val o_val)

/-- Binary `operator*(const Real48& o) const`. -/
def operator_mul (a o : Real48) : Except OverflowError Real48 :=
  let a_val := a.operator_double
  let o_val := o.operator_double
  Real48_double (binary64.mul a_val o_val)

/-- The comparison `operator>(const Real48& o) const noexcept`. -/
def operator_gt (a o : Real48) : Bool :=
  let a_val := a.operator_double
  let o_val := o.operator_double
  binary64.gt a_val o_val

/-- The comparison `operator<(const Real48& o) const noexcept`. -/
def operator_lt (a o : Real48) : Bool :=
  let a_val := a.operator_double
  let o_val := o.operator_double
  binary64.lt a_val o_val

/-- The constant `Real48::min()`. -/
def min : Real48 :=
  let result := Real48_default
  let result : Real48 := { result with data_ := { result.data_ with exponent := 1 % 2 ^ 8 } }
  let result : Real48 := { result with data_ := { result.data_ with mantissa := 0 % 2 ^ 39 } }
  let result : Real48 := { result with data_ := { result.data_ with sign := 0 % 2 } }
  result

/-- The constant `Real48::max()`. -/
def max : Real48 :=
  let result := Real48_default
  let result : Real48 := { result with data_ := { result.data_ with exponent := 255 % 2 ^ 8 } }
  let result : Real48 := { result with data_ := { result.data_ with mantissa := 0x7FFFFFFFFF % 2 ^ 39 } }
  let result : Real48 := { result with data_ := { result.data_ with sign := 0 % 2 } }
  result

/-- The constant `Real48::epsilon()`. -/
def epsilon : Real48 :=
  let result := Real48_default
  let result : Real48 := { result with data_ := { result.data_ with exponent := (129 - 39) % 2 ^ 8 } }
  let result : Real48 := { result with data_ := { result.data_ with mantissa := 0 % 2 ^ 39 } }
  let result : Real48 := { result with data_ := { result.data_ with sign := 0 % 2 } }
  result

/-- The zero/sign predicate of the data model: a zero exponent forces a zero
sign and a zero mantissa. -/
def canonical (r : Real48) : Prop :=
  r.data_.exponent = 0 → r.data_.sign = 0 ∧ r.data_.mantissa = 0

instance (r : Real48) : Decidable r.canonical := by
  unfold canonical; infer_instance

end Real48

/-! ## The fuzz harness -/

/-- The instance `test<float>` of the harness; `input` is the bit pattern read
from the buffer.  A caught `std::overflow_error` gives `false`. -/
def test_float (input : Nat) : Bool :=
  match Real48.Real48_float input with
  | Except.error _ => false
  | Except.ok r48 =>
    let epsilon := float_epsilon
    let a := input
    match r48.operator_float with
    | Except.error _ => false
    | Except.ok b =>
      binary32.le (binary32.fabs (binary32.sub a b))
        (binary32.mul
          (if binary32.lt (binary32.fabs a) (binary32.fabs b) then binary32.fabs b
           else binary32.fabs a) epsilon)

/-- The instance `test<double>` of the harness. -/
def test_double (input : Nat) : Bool :=
  match Real48.Real48_double input with
  | Except.error _ => false
  | Except.ok r48 =>
    let epsilon := double_epsilon
    let a := input
    let b := r48.operator_double
    binary64.le (binary64.fabs (binary64.sub a b))
      (binary64.mul
        (if binary64.lt (binary64.fabs a) (binary64.fabs b) then binary64.fabs b
         else binary64.fabs a) epsilon)

/-! ## Bit-level lemmas -/

theorem and_one_eq_mod (x : Nat) : x &&& 1 = x % 2 :=
  Nat.and_pow_two_sub_one_eq_mod x 1

theorem and_0xFF_eq_mod (x : Nat) : x &&& 0xFF = x % 2 ^ 8 :=
  Nat.and_pow_two_sub_one_eq_mod x 8

theorem and_0x7FF_eq_mod (x : Nat) : x &&& 0x7FF = x % 2 ^ 11 :=
  Nat.and_pow_two_sub_one_eq_mod x 11

theorem and_0x7FFFFF_eq_mod (x : Nat) : x &&& 0x7FFFFF = x % 2 ^ 23 :=
  Nat.and_pow_two_sub_one_eq_mod x 23

theorem and_0xFFFFFFFFFFFFF_eq_mod (x : Nat) : x &&& 0xFFFFFFFFFFFFF = x % 2 ^ 52 :=
  Nat.and_pow_two_sub_one_eq_mod x 52

/-- Assembling three disjoint fields with `|` is addition. -/
theorem or_fields (i j s e f : Nat) (hij : j ≤ i) (he : e < 2 ^ (i - j)) (hf : f < 2 ^ j) :
    (s * 2 ^ i ||| e * 2 ^ j) ||| f = s * 2 ^ i + e * 2 ^ j + f := by
  have hej : e * 2 ^ j < 2 ^ i := by
    calc e * 2 ^ j < 2 ^ (i - j) * 2 ^ j := Nat.mul_lt_mul_of_pos_right he (by positivity)
      _ = 2 ^ i := by rw [← pow_add, Nat.sub_add_cancel hij]
  have h1 : s * 2 ^ i ||| e * 2 ^ j = s * 2 ^ i + e * 2 ^ j := by
    rw [Nat.mul_comm s, ← Nat.mul_add_lt_is_or hej]
  have h2 : s * 2 ^ i + e * 2 ^ j = 2 ^ j * (s * 2 ^ (i - j) + e) := by
    have : (2 : Nat) ^ i = 2 ^ (i - j) * 2 ^ j := by rw [← pow_add, Nat.sub_add_cancel hij]
    rw [this]; ring
  rw [h1, h2, ← Nat.mul_add_lt_is_or hf]

theorem float_sign_eq (x : Nat) : float_sign x = x / 2 ^ 31 % 2 := by
  unfold float_sign; rw [and_one_eq_mod, Nat.shiftRight_eq_div_pow]

theorem float_exponent_eq (x : Nat) : float_exponent x = x / 2 ^ 23 % 2 ^ 8 := by
  unfold float_exponent; rw [and_0xFF_eq_mod, Nat.shiftRight_eq_div_pow]

theorem float_fraction_eq (x : Nat) : float_fraction x = x % 2 ^ 23 := by
  unfold float_fraction; rw [and_0x7FFFFF_eq_mod]

theorem double_sign_eq (x : Nat) : double_sign x = x / 2 ^ 63 % 2 := by
  unfold double_sign; rw [and_one_eq_mod, Nat.shiftRight_eq_div_pow]

theorem double_exponent_eq (x : Nat) : double_exponent x = x / 2 ^ 52 % 2 ^ 11 := by
  unfold double_exponent; rw [and_0x7FF_eq_mod, Nat.shiftRight_eq_div_pow]

theorem double_fraction_eq (x : Nat) : double_fraction x = x % 2 ^ 52 := by
  unfold double_fraction; rw [and_0xFFFFFFFFFFFFF_eq_mod]

/-- A binary32 bit pattern is the sum of its three fields. -/
theorem float_fields (x : Nat) (hx : x < 2 ^ 32) :
    x = float_sign x * 2 ^ 31 + float_exponent x * 2 ^ 23 + float_fraction x := by
  rw [float_sign_eq, float_exponent_eq, float_fraction_eq]; omega

/-- A binary64 bit pattern is the sum of its three fields. -/
theorem double_fields (x : Nat) (hx : x < 2 ^ 64) :
    x = double_sign x * 2 ^ 63 + double_exponent x * 2 ^ 52 + double_fraction x := by
  rw [double_sign_eq, double_exponent_eq, double_fraction_eq]; omega

/-! ## Closed forms of the encoders and decoders -/

theorem classify_float_normal (x : Nat) (h1 : 1 ≤ float_exponent x) (h2 : float_exponent x ≤ 254) :
    classify_ieee_float x = FpClass.FP_NORMAL := by
  unfold classify_ieee_float
  rw [if_neg (by omega), if_neg (by omega)]

theorem classify_double_normal (x : Nat) (h1 : 1 ≤ double_exponent x)
    (h2 : double_exponent x ≤ 2046) : classify_ieee_double x = FpClass.FP_NORMAL := by
  unfold classify_ieee_double
  rw [if_neg (by omega), if_neg (by omega)]

/-- The float32 encoder on a normal input, in arithmetic form. -/
theorem Real48_float_normal (x : Nat) (hx : x < 2 ^ 32) (h1 : 1 ≤ float_exponent x)
    (h2 : float_exponent x ≤ 254) :
    Real48.Real48_float x =
      if float_exponent x ≤ 253 then
        Except.ok ⟨⟨float_exponent x + 2, float_fraction x * 2 ^ 16, float_sign x⟩⟩
      else Except.error OverflowError.exponentOutOfRange := by
  have hcls := classify_float_normal x h1 h2
  have hs : float_sign x < 2 := by rw [float_sign_eq]; omega
  have hf : float_fraction x < 2 ^ 23 := by rw [float_fraction_eq]; omega
  unfold Real48.Real48_float
  simp only [hcls, Nat.mod_eq_of_lt hx]
  have e1 : (x >>> 31) &&& 1 = float_sign x := rfl
  have e2 : (x >>> 23) &&& 0xFF = float_exponent x := rfl
  have e3 : x &&& 0x7FFFFF = float_fraction x := rfl
  simp only [e1, e2, e3]
  rw [if_neg (by decide), if_neg (by decide), if_neg (by decide), if_neg (by decide)]
  by_cases h : float_exponent x ≤ 253
  · rw [if_pos h, if_neg (by omega)]
    have a1 : (((float_exponent x : Int) - 127 + 129) % 2 ^ 8).toNat % 2 ^ 8
        = float_exponent x + 2 := by omega
    have a2 : float_fraction x <<< 16 % 2 ^ 64 % 2 ^ 39 = float_fraction x * 2 ^ 16 := by
      rw [Nat.shiftLeft_eq]; omega
    have a3 : float_sign x % 2 ^ 8 % 2 = float_sign x := by omega
    rw [a1, a2, a3]
  · rw [if_neg h, if_pos (by omega)]

/-- The float64 encoder on a normal input, in arithmetic form. -/
theorem Real48_double_normal (x : Nat) (hx : x < 2 ^ 64) (h1 : 1 ≤ double_exponent x)
    (h2 : double_exponent x ≤ 2046) :
    Real48.Real48_double x =
      if 895 ≤ double_exponent x ∧ double_exponent x ≤ 1149 then
        Except.ok ⟨⟨double_exponent x - 894, double_fraction x / 2 ^ 13, double_sign x⟩⟩
      else Except.error OverflowError.exponentOutOfRange := by
  have hcls := classify_double_normal x h1 h2
  have hs : double_sign x < 2 := by rw [double_sign_eq]; omega
  have hf : double_fraction x < 2 ^ 52 := by rw [double_fraction_eq]; omega
  unfold Real48.Real48_double
  simp only [hcls, Nat.mod_eq_of_lt hx]
  have e1 : (x >>> 63) &&& 1 = double_sign x := rfl
  have e2 : (x >>> 52) &&& 0x7FF = double_exponent x := rfl
  have e3 : x &&& 0xFFFFFFFFFFFFF = double_fraction x := rfl
  simp only [e1, e2, e3]
  rw [if_neg (by decide), if_neg (by decide), if_neg (by decide), if_neg (by decide)]
  by_cases h : 895 ≤ double_exponent x ∧ double_exponent x ≤ 1149
  · rw [if_pos h, if_neg (by omega)]
    have a1 : (((double_exponent x : Int) - 1023 + 129) % 2 ^ 8).toNat % 2 ^ 8
        = double_exponent x - 894 := by omega
    have a2 : double_fraction x >>> 13 % 2 ^ 39 = double_fraction x / 2 ^ 13 := by
      rw [Nat.shiftRight_eq_div_pow]; omega
    have a3 : double_sign x % 2 ^ 8 % 2 = double_sign x := by omega
    rw [a1, a2, a3]
  · rw [if_neg h, if_pos (by omega)]

/-- The float32 decoder on a non-zero value, in arithmetic form. -/
theorem operator_float_nonzero (r : Real48) (hr : r.wf) (h0 : r.data_.exponent ≠ 0) :
    r.operator_float =
      if 3 ≤ r.data_.exponent then
        Except.ok (r.data_.sign * 2 ^ 31 + (r.data_.exponent - 2) * 2 ^ 23
          + r.data_.mantissa / 2 ^ 16)
      else Except.error OverflowError.cannotRepresentInFloat := by
  obtain ⟨he, hm, hs⟩ := hr
  unfold Real48.operator_float
  simp only [Nat.mod_eq_of_lt he, Nat.mod_eq_of_lt (show r.data_.mantissa < 2 ^ 64 by omega),
    Nat.mod_eq_of_lt (show r.data_.sign < 2 ^ 8 by omega),
    Nat.mod_eq_of_lt (show r.data_.sign < 2 ^ 32 by omega)]
  rw [if_neg h0]
  by_cases h : 3 ≤ r.data_.exponent
  · rw [if_pos h, if_neg (by omega)]
    have a1 : (((r.data_.exponent : Int) - 129 + 127) % 2 ^ 32).toNat = r.data_.exponent - 2 := by
      omega
    have a2 : r.data_.mantissa >>> 16 % 2 ^ 32 &&& 0x7FFFFF = r.data_.mantissa / 2 ^ 16 := by
      rw [and_0x7FFFFF_eq_mod, Nat.shiftRight_eq_div_pow]; omega
    have a3 : r.data_.sign <<< 31 % 2 ^ 32 = r.data_.sign * 2 ^ 31 := by
      rw [Nat.shiftLeft_eq]; omega
    have a4 : (r.data_.exponent - 2) <<< 23 % 2 ^ 32 = (r.data_.exponent - 2) * 2 ^ 23 := by
      rw [Nat.shiftLeft_eq]; omega
    rw [a1, a2, a3, a4, Nat.zero_or,
      or_fields 31 23 _ _ _ (by omega) (by omega) (by omega)]
  · rw [if_neg h, if_pos (by omega)]

/-- The float64 decoder on a non-zero value, in arithmetic form. -/
theorem operator_double_nonzero (r : Real48) (hr : r.wf) (h0 : r.data_.exponent ≠ 0) :
    r.operator_double =
      r.data_.sign * 2 ^ 63 + (r.data_.exponent + 894) * 2 ^ 52 + r.data_.mantissa * 2 ^ 13 := by
  obtain ⟨he, hm, hs⟩ := hr
  unfold Real48.operator_double
  simp only [Nat.mod_eq_of_lt he, Nat.mod_eq_of_lt (show r.data_.mantissa < 2 ^ 64 by omega),
    Nat.mod_eq_of_lt (show r.data_.sign < 2 ^ 8 by omega),
    Nat.mod_eq_of_lt (show r.data_.sign < 2 ^ 64 by omega)]
  rw [if_neg h0]
  have a1 : (((r.data_.exponent : Int) - 129 + 1023) % 2 ^ 64).toNat = r.data_.exponent + 894 := by
    omega
  have a2 : r.data_.mantissa <<< 13 % 2 ^ 64 &&& 0xFFFFFFFFFFFFF = r.data_.mantissa * 2 ^ 13 := by
    rw [and_0xFFFFFFFFFFFFF_eq_mod, Nat.shiftLeft_eq]; omega
  have a3 : r.data_.sign <<< 63 % 2 ^ 64 = r.data_.sign * 2 ^ 63 := by
    rw [Nat.shiftLeft_eq]; omega
  have a4 : (r.data_.exponent + 894) <<< 52 % 2 ^ 64 = (r.data_.exponent + 894) * 2 ^ 52 := by
    rw [Nat.shiftLeft_eq]; omega
  rw [a1, a2, a3, a4, Nat.zero_or,
    or_fields 63 52 _ _ _ (by omega) (by omega) (by omega)]

/-- The decoders on a value with zero exponent. -/
theorem operator_float_zero (r : Real48) (h0 : r.data_.exponent = 0) :
    r.operator_float = Except.ok 0 := by
  unfold Real48.operator_float
  simp [h0]

theorem operator_double_zero (r : Real48) (h0 : r.data_.exponent = 0) :
    r.operator_double = 0 := by
  unfold Real48.operator_double
  simp [h0]

/-- The fields of a binary32 bit pattern assembled from in-range fields. -/
theorem float_fields_of_sum (s e f : Nat) (hs : s < 2) (he : e < 2 ^ 8) (hf : f < 2 ^ 23) :
    float_sign (s * 2 ^ 31 + e * 2 ^ 23 + f) = s ∧
    float_exponent (s * 2 ^ 31 + e * 2 ^ 23 + f) = e ∧
    float_fraction (s * 2 ^ 31 + e * 2 ^ 23 + f) = f := by
  rw [float_sign_eq, float_exponent_eq, float_fraction_eq]; omega

/-- The fields of a binary64 bit pattern assembled from in-range fields. -/
theorem double_fields_of_sum (s e f : Nat) (hs : s < 2) (he : e < 2 ^ 11) (hf : f < 2 ^ 52) :
    double_sign (s * 2 ^ 63 + e * 2 ^ 52 + f) = s ∧
    double_exponent (s * 2 ^ 63 + e * 2 ^ 52 + f) = e ∧
    double_fraction (s * 2 ^ 63 + e * 2 ^ 52 + f) = f := by
  rw [double_sign_eq, double_exponent_eq, double_fraction_eq]; omega

/-- The float32 encoder on an input classified as zero or subnormal. -/
theorem zero_canon_float (x : Nat)
    (h : classify_ieee_float x = FpClass.FP_ZERO ∨ classify_ieee_float x = FpClass.FP_SUBNORMAL) :
    Real48.Real48_float x = Except.ok ⟨⟨0, 0, 0⟩⟩ := by
  unfold Real48.Real48_float
  rcases h with h | h <;> simp [h]

/-- The float64 encoder on an input classified as zero or subnormal. -/
theorem zero_canon_double (x : Nat)
    (h : classify_ieee_double x = FpClass.FP_ZERO ∨
      classify_ieee_double x = FpClass.FP_SUBNORMAL) :
    Real48.Real48_double x = Except.ok ⟨⟨0, 0, 0⟩⟩ := by
  unfold Real48.Real48_double
  rcases h with h | h <;> simp [h]

/-! ## Round trips -/

/-- C1: for every normal float32 bit pattern `x` (biased exponent in 1..254) that
the float32 encoder accepts, the float32 decoder applied to the encoded value
succeeds and returns exactly the bit pattern `x`. -/
theorem float_roundtrip_exact (x : Nat) (hx : x < 2 ^ 32) (h1 : 1 ≤ float_exponent x)
    (h2 : float_exponent x ≤ 254) (r : Real48) (henc : Real48.Real48_float x = Except.ok r) :
    r.operator_float = Except.ok x := by
  rw [Real48_float_normal x hx h1 h2] at henc
  have hs : float_sign x < 2 := by rw [float_sign_eq]; omega
  have hf : float_fraction x < 2 ^ 23 := by rw [float_fraction_eq]; omega
  by_cases h : float_exponent x ≤ 253
  · rw [if_pos h] at henc
    injection henc with henc
    subst henc
    rw [operator_float_nonzero _ ⟨by simp only; omega, by simp only; omega, hs⟩
      (by simp only; omega)]
    simp only
    rw [if_pos (by omega)]
    congr 1
    have := float_fields x hx
    omega
  · rw [if_neg h] at henc
    cases henc

theorem float_roundtrip_exact_witness :
    Real48.Real48_float 0xBFC00000 = Except.ok ⟨⟨129, 2 ^ 38, 1⟩⟩ ∧
    Real48.operator_float ⟨⟨129, 2 ^ 38, 1⟩⟩ = Except.ok 0xBFC00000 :=
  ⟨by rfl, float_roundtrip_exact 0xBFC00000 (by decide) (by decide) (by decide) _ (by rfl)⟩

/-- The value of a normal binary64 bit pattern given by its fields. -/
theorem double_value_of_fields (s e f : Nat) (hs : s < 2) (he0 : e ≠ 0) (he : e < 2 ^ 11)
    (hf : f < 2 ^ 52) :
    double_value (s * 2 ^ 63 + e * 2 ^ 52 + f) =
      (if s = 1 then -1 else 1) * (((2 : ℚ) ^ 52 + (f : ℚ)) * (2 : ℚ) ^ ((e : ℤ) - 1075)) := by
  obtain ⟨h1, h2, h3⟩ := double_fields_of_sum s e f hs he hf
  unfold double_value
  simp only [h1, h2, h3, if_neg he0]
  by_cases h : s = 1
  · simp only [if_pos h]; push_cast; ring
  · simp only [if_neg h]; push_cast; ring

/-- C2: for every normal float64 bit pattern `x` that the float64 encoder
accepts, the exact rational value of the float64 decoding of the encoded value
differs from the exact rational value of `x` by at most `2^-39 * |x|`. -/
theorem double_roundtrip_tolerance (x : Nat) (hx : x < 2 ^ 64) (h1 : 1 ≤ double_exponent x)
    (h2 : double_exponent x ≤ 2046) (r : Real48)
    (henc : Real48.Real48_double x = Except.ok r) :
    |double_value r.operator_double - double_value x|
      ≤ (2 : ℚ) ^ (-39 : ℤ) * |double_value x| := by
  rw [Real48_double_normal x hx h1 h2] at henc
  have hs : double_sign x < 2 := by rw [double_sign_eq]; omega
  have hf : double_fraction x < 2 ^ 52 := by rw [double_fraction_eq]; omega
  by_cases h : 895 ≤ double_exponent x ∧ double_exponent x ≤ 1149
  · rw [if_pos h] at henc
    injection henc with henc
    subst henc
    rw [operator_double_nonzero _ ⟨by simp only; omega, by simp only; omega, hs⟩
      (by simp only; omega)]
    simp only
    have hx' := double_fields x hx
    have he : double_exponent x - 894 + 894 = double_exponent x := by omega
    rw [he]
    have hv := double_value_of_fields (double_sign x) (double_exponent x) (double_fraction x)
      hs (by omega) (by omega) hf
    rw [← hx'] at hv
    have hv2 := double_value_of_fields (double_sign x) (double_exponent x)
      (double_fraction x / 2 ^ 13 * 2 ^ 13) hs (by omega) (by omega) (by omega)
    rw [hv, hv2]
    have hp : (0 : ℚ) < (2 : ℚ) ^ ((double_exponent x : ℤ) - 1075) := by positivity
    have hsplit : (double_fraction x : ℚ) =
        ((double_fraction x / 2 ^ 13 * 2 ^ 13 : Nat) : ℚ) + ((double_fraction x % 2 ^ 13 : Nat) : ℚ) := by
      rw [← Nat.cast_add]; congr 1; omega
    have ht : ((double_fraction x % 2 ^ 13 : Nat) : ℚ) ≤ 2 ^ 13 := by
      have : double_fraction x % 2 ^ 13 ≤ 2 ^ 13 := by omega
      exact_mod_cast this
    have ht0 : (0 : ℚ) ≤ ((double_fraction x % 2 ^ 13 : Nat) : ℚ) := Nat.cast_nonneg _
    have hq0 : (0 : ℚ) ≤ ((double_fraction x / 2 ^ 13 * 2 ^ 13 : Nat) : ℚ) := Nat.cast_nonneg _
    have h39 : (2 : ℚ) ^ (-39 : ℤ) = 1 / 2 ^ 39 := by
      rw [zpow_neg, one_div]; norm_cast
    generalize (2 : ℚ) ^ ((double_exponent x : ℤ) - 1075) = p at hp ⊢
    generalize ((double_fraction x / 2 ^ 13 * 2 ^ 13 : Nat) : ℚ) = q at hsplit hq0 ⊢
    generalize ((double_fraction x % 2 ^ 13 : Nat) : ℚ) = t at hsplit ht ht0 ⊢
    rw [hsplit, h39]
    have hsign : ∀ c : ℚ, (c = -1 ∨ c = 1) →
        |c * ((2 ^ 52 + q) * p) - c * ((2 ^ 52 + (q + t)) * p)| ≤
          1 / 2 ^ 39 * |c * ((2 ^ 52 + (q + t)) * p)| := by
      intro c hc
      have hA : |c * ((2 ^ 52 + q) * p) - c * ((2 ^ 52 + (q + t)) * p)| = t * p := by
        rcases hc with rfl | rfl
        · rw [show (-1 : ℚ) * ((2 ^ 52 + q) * p) - -1 * ((2 ^ 52 + (q + t)) * p) = t * p by ring]
          exact abs_of_nonneg (by positivity)
        · rw [show (1 : ℚ) * ((2 ^ 52 + q) * p) - 1 * ((2 ^ 52 + (q + t)) * p) = -(t * p) by ring,
            abs_neg]
          exact abs_of_nonneg (by positivity)
      have hB : |c * ((2 ^ 52 + (q + t)) * p)| = (2 ^ 52 + (q + t)) * p := by
        rcases hc with rfl | rfl
        · rw [show (-1 : ℚ) * ((2 ^ 52 + (q + t)) * p) = -((2 ^ 52 + (q + t)) * p) by ring,
            abs_neg]
          exact abs_of_nonneg (by positivity)
        · rw [one_mul]
          exact abs_of_nonneg (by positivity)
      rw [hA, hB]
      have : t * p ≤ 1 / 2 ^ 39 * (2 ^ 52 * p) := by
        rw [show (1 : ℚ) / 2 ^ 39 * (2 ^ 52 * p) = 2 ^ 13 * p by ring]
        exact mul_le_mul_of_nonneg_right ht hp.le
      have h3 : (1 : ℚ) / 2 ^ 39 * (2 ^ 52 * p) ≤ 1 / 2 ^ 39 * ((2 ^ 52 + (q + t)) * p) := by
        apply mul_le_mul_of_nonneg_left _ (by positivity)
        apply mul_le_mul_of_nonneg_right _ hp.le
        linarith
      linarith
    by_cases hs1 : double_sign x = 1
    · simp only [if_pos hs1]; exact hsign (-1) (Or.inl rfl)
    · simp only [if_neg hs1]; exact hsign 1 (Or.inr rfl)
  · rw [if_neg h] at henc
    cases henc

theorem double_roundtrip_tolerance_witness :
    Real48.Real48_double 0x3FF8000000001FFF = Except.ok ⟨⟨129, 2 ^ 38, 0⟩⟩ ∧
    |double_value (Real48.operator_double ⟨⟨129, 2 ^ 38, 0⟩⟩) - double_value 0x3FF8000000001FFF|
      ≤ (2 : ℚ) ^ (-39 : ℤ) * |double_value 0x3FF8000000001FFF| :=
  ⟨by rfl, double_roundtrip_tolerance 0x3FF8000000001FFF (by decide) (by decide) (by decide) _
    (by rfl)⟩

/-! ## Zero, NaN, infinity -/

/-- C3: every float32 and every float64 input classified as zero or subnormal is
accepted by its encoder and yields the Real48 with exponent 0, mantissa 0 and
sign 0; decoding that value with `operator float()` and with
`operator double()` gives the all-zero bit pattern (positive zero). -/
theorem zero_canonicalization (x32 x64 : Nat)
    (h32 : classify_ieee_float x32 = FpClass.FP_ZERO ∨
      classify_ieee_float x32 = FpClass.FP_SUBNORMAL)
    (h64 : classify_ieee_double x64 = FpClass.FP_ZERO ∨
      classify_ieee_double x64 = FpClass.FP_SUBNORMAL) :
    Real48.Real48_float x32 = Except.ok ⟨⟨0, 0, 0⟩⟩ ∧
    Real48.Real48_double x64 = Except.ok ⟨⟨0, 0, 0⟩⟩ ∧
    Real48.operator_float ⟨⟨0, 0, 0⟩⟩ = Except.ok 0 ∧
    Real48.operator_double ⟨⟨0, 0, 0⟩⟩ = 0 := by
  exact ⟨zero_canon_float x32 h32, zero_canon_double x64 h64, rfl, rfl⟩

theorem zero_canonicalization_witness :
    Real48.Real48_float 0x80000000 = Except.ok ⟨⟨0, 0, 0⟩⟩ ∧
    Real48.Real48_double 0x8000000000000001 = Except.ok ⟨⟨0, 0, 0⟩⟩ ∧
    Real48.operator_float ⟨⟨0, 0, 0⟩⟩ = Except.ok 0 ∧
    Real48.operator_double ⟨⟨0, 0, 0⟩⟩ = 0 :=
  zero_canonicalization 0x80000000 0x8000000000000001 (Or.inl (by decide)) (Or.inr (by decide))

/-- C4: on every float32 and float64 NaN both encoders fail with the NaN error,
on every infinity they fail with the infinity error (so no Real48 value is
produced), and the NaN, infinity and exponent-out-of-range errors are pairwise
different, as are their messages (also from the message of the float32
decoder's range error). -/
theorem nan_infinity_rejected (n32 i32 n64 i64 : Nat)
    (hn32 : classify_ieee_float n32 = FpClass.FP_NAN)
    (hi32 : classify_ieee_float i32 = FpClass.FP_INFINITE)
    (hn64 : classify_ieee_double n64 = FpClass.FP_NAN)
    (hi64 : classify_ieee_double i64 = FpClass.FP_INFINITE) :
    Real48.Real48_float n32 = Except.error OverflowError.cannotRepresentNaN ∧
    Real48.Real48_float i32 = Except.error OverflowError.cannotRepresentInfinity ∧
    Real48.Real48_double n64 = Except.error OverflowError.cannotRepresentNaN ∧
    Real48.Real48_double i64 = Except.error OverflowError.cannotRepresentInfinity ∧
    (∀ r : Real48, Real48.Real48_float n32 ≠ Except.ok r ∧ Real48.Real48_float i32 ≠ Except.ok r ∧
      Real48.Real48_double n64 ≠ Except.ok r ∧ Real48.Real48_double i64 ≠ Except.ok r) ∧
    OverflowError.cannotRepresentNaN ≠ OverflowError.cannotRepresentInfinity ∧
    OverflowError.cannotRepresentNaN ≠ OverflowError.exponentOutOfRange ∧
    OverflowError.cannotRepresentInfinity ≠ OverflowError.exponentOutOfRange ∧
    OverflowError.cannotRepresentNaN.what ≠ OverflowError.cannotRepresentInfinity.what ∧
    OverflowError.cannotRepresentNaN.what ≠ OverflowError.exponentOutOfRange.what ∧
    OverflowError.cannotRepresentInfinity.what ≠ OverflowError.exponentOutOfRange.what ∧
    OverflowError.cannotRepresentNaN.what ≠ OverflowError.cannotRepresentInFloat.what ∧
    OverflowError.cannotRepresentInfinity.what ≠ OverflowError.cannotRepresentInFloat.what := by
  have a1 : Real48.Real48_float n32 = Except.error OverflowError.cannotRepresentNaN := by
    unfold Real48.Real48_float; simp [hn32]
  have a2 : Real48.Real48_float i32 = Except.error OverflowError.cannotRepresentInfinity := by
    unfold Real48.Real48_float; simp [hi32]
  have a3 : Real48.Real48_double n64 = Except.error OverflowError.cannotRepresentNaN := by
    unfold Real48.Real48_double; simp [hn64]
  have a4 : Real48.Real48_double i64 = Except.error OverflowError.cannotRepresentInfinity := by
    unfold Real48.Real48_double; simp [hi64]
  refine ⟨a1, a2, a3, a4, ?_, by decide, by decide, by decide, by decide, by decide, by decide,
    by decide, by decide⟩
  intro r
  rw [a1, a2, a3, a4]
  exact ⟨by simp, by simp, by simp, by simp⟩

theorem nan_infinity_rejected_witness :
    Real48.Real48_float 0x7FC00000 = Except.error OverflowError.cannotRepresentNaN ∧
    Real48.Real48_float 0xFF800000 = Except.error OverflowError.cannotRepresentInfinity ∧
    Real48.Real48_double 0xFFF0000000000001 = Except.error OverflowError.cannotRepresentNaN ∧
    Real48.Real48_double 0x7FF0000000000000 = Except.error OverflowError.cannotRepresentInfinity :=
  have h := nan_infinity_rejected 0x7FC00000 0xFF800000 0xFFF0000000000001 0x7FF0000000000000
    (by decide) (by decide) (by decide) (by decide)
  ⟨h.1, h.2.1, h.2.2.1, h.2.2.2.1⟩

/-! ## Exponent range checks -/

/-- C5: for every normal float64 bit pattern `x` with biased exponent `e64`, the
float64 encoder fails with the exponent-out-of-range error exactly when
`e48 = e64 - 1023 + 129` is below 1 or above 255, that is when `e64 < 895` or
`e64 > 1149`; otherwise it succeeds and stores `exponent = e48`.  The float64
nearest to `10^60` (pattern `0x4C63E9E4E4C2F344`) is rejected with that error. -/
theorem double_encoder_exponent_range (x : Nat) (hx : x < 2 ^ 64) (h1 : 1 ≤ double_exponent x)
    (h2 : double_exponent x ≤ 2046) :
    (Real48.Real48_double x = Except.error OverflowError.exponentOutOfRange ↔
      ((double_exponent x : Int) - 1023 + 129 < 1 ∨ (double_exponent x : Int) - 1023 + 129 > 255)) ∧
    (((double_exponent x : Int) - 1023 + 129 < 1 ∨ (double_exponent x : Int) - 1023 + 129 > 255) ↔
      (double_exponent x < 895 ∨ double_exponent x > 1149)) ∧
    (¬ ((double_exponent x : Int) - 1023 + 129 < 1 ∨ (double_exponent x : Int) - 1023 + 129 > 255) →
      ∃ r : Real48, Real48.Real48_double x = Except.ok r ∧
        (r.data_.exponent : Int) = (double_exponent x : Int) - 1023 + 129) ∧
    Real48.Real48_double 0x4C63E9E4E4C2F344 = Except.error OverflowError.exponentOutOfRange ∧
    2 * |double_value 0x4C63E9E4E4C2F344 - 10 ^ 60| ≤ (2 : ℚ) ^ ((double_exponent 0x4C63E9E4E4C2F344 : Int) - 1075) := by
  have hform := Real48_double_normal x hx h1 h2
  refine ⟨?_, by omega, ?_, by rfl, ?_⟩
  · by_cases h : 895 ≤ double_exponent x ∧ double_exponent x ≤ 1149
    · rw [hform, if_pos h]
      constructor
      · intro hc; cases hc
      · intro hc; omega
    · rw [hform, if_neg h]
      constructor
      · intro _; omega
      · intro _; rfl
  · intro hne
    have h : 895 ≤ double_exponent x ∧ double_exponent x ≤ 1149 := by omega
    rw [hform, if_pos h]
    exact ⟨_, rfl, by simp only; omega⟩
  · have he : double_exponent 0x4C63E9E4E4C2F344 = 1222 := by decide
    have hv := double_value_of_fields 0 1222 0x3E9E4E4C2F344 (by decide) (by decide) (by decide)
      (by decide)
    have hb : 0 * 2 ^ 63 + 1222 * 2 ^ 52 + 0x3E9E4E4C2F344 = 0x4C63E9E4E4C2F344 := by decide
    rw [hb] at hv
    rw [hv, he]
    have hz : ((1222 : Nat) : Int) - 1075 = ((147 : Nat) : Int) := by decide
    rw [hz, zpow_natCast, if_neg (by decide), one_mul]
    have hpos : (0 : ℚ) ≤ 10 ^ 60 - (2 ^ 52 + ((0x3E9E4E4C2F344 : Nat) : ℚ)) * 2 ^ 147 := by
      norm_num
    rw [abs_sub_comm, abs_of_nonneg hpos]
    norm_num

theorem double_encoder_exponent_range_witness :
    Real48.Real48_double 0x37F0000000000000 = Except.ok ⟨⟨1, 0, 0⟩⟩ ∧
    ¬ (double_exponent 0x37F0000000000000 < 895 ∨ double_exponent 0x37F0000000000000 > 1149) :=
  have h := double_encoder_exponent_range 0x37F0000000000000 (by decide) (by decide) (by decide)
  ⟨by rfl, fun hc => absurd (h.2.1.mpr hc) (by decide)⟩

/-- C6: for every Real48 value `v` with non-zero exponent `e48`, `operator float()`
fails with its range error exactly when `e_native = e48 - 129 + 127` is below 1
or above 254; over the 8-bit field that is exactly `e48 = 1` or `e48 = 2`, so
`Real48::min()` cannot be decoded to float32; for `e48` in 3..255 the decoder
returns a normal float32 bit pattern. -/
theorem float_decoder_exponent_range (v : Real48) (hv : v.wf) (h0 : v.data_.exponent ≠ 0) :
    (v.operator_float = Except.error OverflowError.cannotRepresentInFloat ↔
      ((v.data_.exponent : Int) - 129 + 127 < 1 ∨ (v.data_.exponent : Int) - 129 + 127 > 254)) ∧
    (v.operator_float = Except.error OverflowError.cannotRepresentInFloat ↔
      (v.data_.exponent = 1 ∨ v.data_.exponent = 2)) ∧
    ((3 ≤ v.data_.exponent ∧ v.data_.exponent ≤ 255) →
      ∃ b : Nat, v.operator_float = Except.ok b ∧ b < 2 ^ 32 ∧
        classify_ieee_float b = FpClass.FP_NORMAL) ∧
    Real48.min.operator_float = Except.error OverflowError.cannotRepresentInFloat := by
  have hform := operator_float_nonzero v hv h0
  obtain ⟨he, hm, hs⟩ := hv
  have key : v.operator_float = Except.error OverflowError.cannotRepresentInFloat ↔
      ¬ 3 ≤ v.data_.exponent := by
    by_cases h : 3 ≤ v.data_.exponent
    · rw [hform, if_pos h]
      constructor
      · intro hc; cases hc
      · intro hc; exact absurd h hc
    · rw [hform, if_neg h]
      exact ⟨fun _ => h, fun _ => rfl⟩
  refine ⟨?_, ?_, ?_, by rfl⟩
  · rw [key]; omega
  · rw [key]; omega
  · intro h
    rw [hform, if_pos h.1]
    refine ⟨_, rfl, by omega, ?_⟩
    obtain ⟨-, h2, -⟩ := float_fields_of_sum v.data_.sign (v.data_.exponent - 2)
      (v.data_.mantissa / 2 ^ 16) hs (by omega) (by omega)
    exact classify_float_normal _ (by omega) (by omega)

theorem float_decoder_exponent_range_witness :
    Real48.operator_float ⟨⟨2, 5, 1⟩⟩ = Except.error OverflowError.cannotRepresentInFloat ∧
    Real48.min.operator_float = Except.error OverflowError.cannotRepresentInFloat :=
  have h := float_decoder_exponent_range ⟨⟨2, 5, 1⟩⟩ (by decide) (by decide)
  ⟨h.2.1.mpr (Or.inr rfl), h.2.2.2⟩

/-- C7: for every Real48 value (any sign bit, 8-bit exponent, 39-bit mantissa)
`operator double()` is total; its result is the all-zero pattern when the
exponent is 0, and otherwise a normal float64 whose biased exponent is
`exponent + 894`, which lies in 895..1149.  It is never a NaN, an infinity or a
subnormal. -/
theorem double_decoder_total (v : Real48) (hv : v.wf) :
    v.operator_double < 2 ^ 64 ∧
    (v.data_.exponent = 0 → v.operator_double = 0) ∧
    (v.data_.exponent ≠ 0 →
      classify_ieee_double v.operator_double = FpClass.FP_NORMAL ∧
      double_exponent v.operator_double = v.data_.exponent + 894 ∧
      895 ≤ double_exponent v.operator_double ∧ double_exponent v.operator_double ≤ 1149) ∧
    classify_ieee_double v.operator_double ≠ FpClass.FP_NAN ∧
    classify_ieee_double v.operator_double ≠ FpClass.FP_INFINITE ∧
    classify_ieee_double v.operator_double ≠ FpClass.FP_SUBNORMAL := by
  by_cases h0 : v.data_.exponent = 0
  · rw [operator_double_zero v h0]
    exact ⟨by decide, fun _ => rfl, fun h => absurd h0 h, by decide, by decide, by decide⟩
  · have hform := operator_double_nonzero v hv h0
    obtain ⟨he, hm, hs⟩ := hv
    obtain ⟨-, h2, -⟩ := double_fields_of_sum v.data_.sign (v.data_.exponent + 894)
      (v.data_.mantissa * 2 ^ 13) hs (by omega) (by omega)
    rw [← hform] at h2
    have hn : classify_ieee_double v.operator_double = FpClass.FP_NORMAL :=
      classify_double_normal _ (by omega) (by omega)
    refine ⟨by omega, fun h => absurd h h0, fun _ => ⟨hn, h2, by omega, by omega⟩, ?_, ?_, ?_⟩
    · rw [hn]; decide
    · rw [hn]; decide
    · rw [hn]; decide

theorem double_decoder_total_witness :
    double_exponent (Real48.operator_double ⟨⟨255, 2 ^ 39 - 1, 1⟩⟩) = 255 + 894 ∧
    classify_ieee_double (Real48.operator_double ⟨⟨255, 2 ^ 39 - 1, 1⟩⟩) = FpClass.FP_NORMAL :=
  have h := double_decoder_total ⟨⟨255, 2 ^ 39 - 1, 1⟩⟩ (by decide)
  ⟨(h.2.2.1 (by decide)).2.1, (h.2.2.1 (by decide)).1⟩

/-! ## The zero/sign predicate and the unary operators -/

/-- The float32 encoder only returns values allowed by the bit-fields, and a
zero exponent only together with zero sign and mantissa. -/
theorem Real48_float_canonical (x : Nat) (r : Real48)
    (henc : Real48.Real48_float x = Except.ok r) : r.canonical := by
  unfold Real48.Real48_float at henc
  simp only at henc
  split at henc
  · cases henc
  · split at henc
    · cases henc
    · split at henc
      · injection henc with henc; subst henc; intro _; exact ⟨rfl, rfl⟩
      · split at henc
        · cases henc
        · split at henc
          · cases henc
          · injection henc with henc; subst henc
            intro h; simp only at h; omega

/-- The float64 encoder: a zero exponent only together with zero sign and
mantissa. -/
theorem Real48_double_canonical (x : Nat) (r : Real48)
    (henc : Real48.Real48_double x = Except.ok r) : r.canonical := by
  unfold Real48.Real48_double at henc
  simp only at henc
  split at henc
  · cases henc
  · split at henc
    · cases henc
    · split at henc
      · injection henc with henc; subst henc; intro _; exact ⟨rfl, rfl⟩
      · split at henc
        · cases henc
        · split at henc
          · cases henc
          · injection henc with henc; subst henc
            intro h; simp only at h; omega

/-- C8: the predicate "exponent = 0 implies sign = 0 and mantissa = 0" holds for
the default-constructed Real48, for `min()`, `max()` and `epsilon()` and for
every value returned by either encoder; unary plus and unary minus preserve
it; and for every value satisfying it the float64 decoding is zero (as a bit
pattern and as a number) exactly when the exponent is 0. -/
theorem canonical_invariant (x32 x64 : Nat) (r32 r64 v : Real48)
    (h32 : Real48.Real48_float x32 = Except.ok r32)
    (h64 : Real48.Real48_double x64 = Except.ok r64)
    (hv : v.wf) (hc : v.canonical) :
    Real48.Real48_default.canonical ∧ Real48.min.canonical ∧ Real48.max.canonical ∧
    Real48.epsilon.canonical ∧ r32.canonical ∧ r64.canonical ∧
    v.operator_pos.canonical ∧ v.operator_neg.canonical ∧
    (v.operator_double = 0 ↔ v.data_.exponent = 0) ∧
    (double_value v.operator_double = 0 ↔ v.data_.exponent = 0) := by
  refine ⟨by decide, by decide, by decide, by decide, Real48_float_canonical x32 r32 h32,
    Real48_double_canonical x64 r64 h64, hc, ?_, ?_, ?_⟩
  · unfold Real48.operator_neg
    simp only
    split
    · exact hc
    · split
      · intro h; simp only at h; contradiction
      · intro h; simp only at h; contradiction
  · constructor
    · intro h
      by_contra h0
      rw [operator_double_nonzero v hv h0] at h
      omega
    · exact operator_double_zero v
  · constructor
    · intro h
      by_contra h0
      obtain ⟨he, hm, hs⟩ := hv
      rw [operator_double_nonzero v ⟨he, hm, hs⟩ h0,
        double_value_of_fields _ _ _ hs (by omega) (by omega) (by omega)] at h
      have hp : (0 : ℚ) < ((2 : ℚ) ^ 52 + ((v.data_.mantissa * 2 ^ 13 : Nat) : ℚ)) *
          (2 : ℚ) ^ (((v.data_.exponent + 894 : Nat) : ℤ) - 1075) := by positivity
      split at h
      · linarith
      · linarith
    · intro h0
      rw [operator_double_zero v h0]
      have e0 : double_exponent 0 = 0 := by decide
      have f0 : double_fraction 0 = 0 := by decide
      have s0 : double_sign 0 = 0 := by decide
      unfold double_value
      simp [e0, f0, s0]

theorem canonical_invariant_witness :
    Real48.canonical ⟨⟨129, 2 ^ 38, 0⟩⟩ ∧ Real48.canonical ⟨⟨0, 0, 0⟩⟩ ∧
    (Real48.operator_neg ⟨⟨0, 0, 0⟩⟩).canonical ∧
    (double_value (Real48.operator_double ⟨⟨0, 0, 0⟩⟩) = 0 ↔ (0 : Nat) = 0) :=
  have h := canonical_invariant 0x3FC00000 0x0000000000000001 ⟨⟨129, 2 ^ 38, 0⟩⟩ ⟨⟨0, 0, 0⟩⟩
    ⟨⟨0, 0, 0⟩⟩ (by rfl) (by rfl) (by decide) (by decide)
  ⟨h.2.2.2.2.1, h.2.2.2.2.2.1, h.2.2.2.2.2.2.2.1, h.2.2.2.2.2.2.2.2.2⟩

/-- C9: for every Real48 value `v` with non-zero exponent, applying unary minus
twice gives back `v`: the same sign, exponent and mantissa. -/
theorem neg_neg_nonzero (v : Real48) (hv : v.wf) (h0 : v.data_.exponent ≠ 0) :
    v.operator_neg.operator_neg = v := by
  obtain ⟨he, hm, hs⟩ := hv
  obtain ⟨⟨e, m, s⟩⟩ := v
  simp only at he hm hs h0
  have hs01 : s = 0 ∨ s = 1 := by omega
  rcases hs01 with rfl | rfl
  · simp [Real48.operator_neg, h0]
  · simp [Real48.operator_neg, h0]

theorem neg_neg_nonzero_witness :
    Real48.operator_neg (Real48.operator_neg ⟨⟨200, 12345, 1⟩⟩) = ⟨⟨200, 12345, 1⟩⟩ :=
  neg_neg_nonzero ⟨⟨200, 12345, 1⟩⟩ (by decide) (by decide)

/-- C10: for every Real48 value `v`, unary minus leaves the exponent and the
mantissa unchanged, flips the sign bit when the exponent is non-zero and
returns `v` unchanged when the exponent is 0; in particular negating the result
of encoding a float32 or float64 zero returns the same value; unary plus
returns `v` unchanged. -/
theorem neg_frame (v : Real48) (hv : v.wf) :
    v.operator_neg.data_.exponent = v.data_.exponent ∧
    v.operator_neg.data_.mantissa = v.data_.mantissa ∧
    (v.data_.exponent ≠ 0 → v.operator_neg.data_.sign = 1 - v.data_.sign) ∧
    (v.data_.exponent = 0 → v.operator_neg = v) ∧
    (∀ x z, classify_ieee_float x = FpClass.FP_ZERO → Real48.Real48_float x = Except.ok z →
      z.operator_neg = z) ∧
    (∀ x z, classify_ieee_double x = FpClass.FP_ZERO → Real48.Real48_double x = Except.ok z →
      z.operator_neg = z) ∧
    v.operator_pos = v := by
  obtain ⟨he, hm, hs⟩ := hv
  have hzero : ∀ z : Real48, z.data_.exponent = 0 → z.operator_neg = z := by
    intro z hz
    unfold Real48.operator_neg
    simp [hz]
  refine ⟨?_, ?_, ?_, hzero v, ?_, ?_, rfl⟩
  · unfold Real48.operator_neg
    simp only
    split
    · rfl
    · split <;> rfl
  · unfold Real48.operator_neg
    simp only
    split
    · rfl
    · split <;> rfl
  · intro h0
    unfold Real48.operator_neg
    simp only [if_neg h0]
    split
    · simp only; omega
    · simp only; omega
  · intro x z hx hz
    have h := (zero_canon_float x (Or.inl hx))
    rw [h] at hz
    injection hz with hz
    subst hz
    exact hzero _ rfl
  · intro x z hx hz
    have h := (zero_canon_double x (Or.inl hx))
    rw [h] at hz
    injection hz with hz
    subst hz
    exact hzero _ rfl

theorem neg_frame_witness :
    (Real48.operator_neg ⟨⟨129, 7, 0⟩⟩).data_.sign = 1 - 0 ∧
    (Real48.operator_neg ⟨⟨129, 7, 0⟩⟩).data_.exponent = 129 ∧
    (Real48.operator_neg ⟨⟨129, 7, 0⟩⟩).data_.mantissa = 7 :=
  have h := neg_frame ⟨⟨129, 7, 0⟩⟩ (by decide)
  ⟨h.2.2.1 (by decide), h.1, h.2.1⟩

/-! ## Host arithmetic on binary64: fields, values, comparisons -/

theorem binary64_sign_of (x : Nat) : binary64.sign_of x = double_sign x := rfl

theorem binary64_exponent_of (x : Nat) : binary64.exponent_of x = double_exponent x := rfl

theorem binary64_fraction_of (x : Nat) : binary64.fraction_of x = double_fraction x := rfl

theorem binary64_sig (x : Nat) :
    binary64.sig x = if double_exponent x = 0 then double_fraction x
      else 2 ^ 52 + double_fraction x := rfl

theorem binary64_exp2 (x : Nat) :
    binary64.exp2 x = (if double_exponent x = 0 then 1 else (double_exponent x : Int)) - 1075 := by
  unfold FpFormat.exp2 FpFormat.bias
  rw [binary64_exponent_of]
  simp only [binary64]
  omega

theorem binary64_is_nan (x : Nat) :
    binary64.is_nan x = true ↔ (double_exponent x = 2047 ∧ double_fraction x ≠ 0) := by
  unfold FpFormat.is_nan
  rw [binary64_exponent_of, binary64_fraction_of]
  simp [binary64]

/-- The value of a binary64 pattern is its integer in units of `2^E` times
`2^E`. -/
theorem double_value_eq_scaled (x : Nat) (E : Int) (hE : E ≤ binary64.exp2 x) :
    double_value x = ((binary64.scaled x E : Int) : ℚ) * (2 : ℚ) ^ E := by
  have hpow : (2 : ℚ) ^ (binary64.exp2 x) =
      (((2 : Nat) ^ (binary64.exp2 x - E).toNat : Nat) : ℚ) * (2 : ℚ) ^ E := by
    have h1 : binary64.exp2 x = ((binary64.exp2 x - E).toNat : Int) + E := by omega
    conv_lhs => rw [h1]
    rw [zpow_add₀ (by norm_num), zpow_natCast]
    push_cast
    rfl
  have hval : double_value x =
      (if double_sign x = 1 then -1 else 1) *
        ((binary64.sig x : ℚ) * (2 : ℚ) ^ (binary64.exp2 x)) := by
    unfold double_value
    rw [binary64_sig, binary64_exp2]
    by_cases he : double_exponent x = 0
    · simp only [he, if_true]
      by_cases hs : double_sign x = 1
      · simp only [hs, if_true]; norm_num
      · simp only [hs, if_false]; norm_num
    · simp only [he, if_false]
      by_cases hs : double_sign x = 1
      · simp only [hs, if_true]; push_cast; ring
      · simp only [hs, if_false]; push_cast; ring
  rw [hval, hpow]
  unfold FpFormat.scaled
  rw [binary64_sign_of]
  by_cases hs : double_sign x = 1
  · simp only [hs, if_true]; push_cast; ring
  · simp only [hs, if_false]; push_cast; ring

/-- The host `<` on two non-NaN binary64 patterns compares their values. -/
theorem binary64_lt_iff (x y : Nat) (hx : binary64.is_nan x = false)
    (hy : binary64.is_nan y = false) :
    binary64.lt x y = true ↔ double_value x < double_value y := by
  have hE1 : Min.min (binary64.exp2 x) (binary64.exp2 y) ≤ binary64.exp2 x := min_le_left _ _
  have hE2 : Min.min (binary64.exp2 x) (binary64.exp2 y) ≤ binary64.exp2 y := min_le_right _ _
  rw [double_value_eq_scaled x _ hE1, double_value_eq_scaled y _ hE2]
  have hp : (0 : ℚ) < (2 : ℚ) ^ (Min.min (binary64.exp2 x) (binary64.exp2 y)) := by positivity
  rw [mul_lt_mul_right hp, Int.cast_lt]
  unfold FpFormat.lt
  simp [hx, hy]

/-- The host `<=` on two non-NaN binary64 patterns compares their values. -/
theorem binary64_le_iff (x y : Nat) (hx : binary64.is_nan x = false)
    (hy : binary64.is_nan y = false) :
    binary64.le x y = true ↔ double_value x ≤ double_value y := by
  have hE1 : Min.min (binary64.exp2 x) (binary64.exp2 y) ≤ binary64.exp2 x := min_le_left _ _
  have hE2 : Min.min (binary64.exp2 x) (binary64.exp2 y) ≤ binary64.exp2 y := min_le_right _ _
  rw [double_value_eq_scaled x _ hE1, double_value_eq_scaled y _ hE2]
  have hp : (0 : ℚ) < (2 : ℚ) ^ (Min.min (binary64.exp2 x) (binary64.exp2 y)) := by positivity
  rw [mul_le_mul_right hp, Int.cast_le]
  unfold FpFormat.le
  simp [hx, hy]

/-- The host `>` on two non-NaN binary64 patterns compares their values. -/
theorem binary64_gt_iff (x y : Nat) (hx : binary64.is_nan x = false)
    (hy : binary64.is_nan y = false) :
    binary64.gt x y = true ↔ double_value y < double_value x := by
  have hE1 : Min.min (binary64.exp2 x) (binary64.exp2 y) ≤ binary64.exp2 x := min_le_left _ _
  have hE2 : Min.min (binary64.exp2 x) (binary64.exp2 y) ≤ binary64.exp2 y := min_le_right _ _
  rw [double_value_eq_scaled x _ hE1, double_value_eq_scaled y _ hE2]
  have hp : (0 : ℚ) < (2 : ℚ) ^ (Min.min (binary64.exp2 x) (binary64.exp2 y)) := by positivity
  rw [mul_lt_mul_right hp, Int.cast_lt]
  unfold FpFormat.gt
  simp [hx, hy]

/-- The float64 decoder never returns a NaN. -/
theorem operator_double_not_nan (v : Real48) (hv : v.wf) :
    binary64.is_nan v.operator_double = false := by
  rw [Bool.eq_false_iff]
  intro h
  rw [binary64_is_nan] at h
  by_cases h0 : v.data_.exponent = 0
  · rw [operator_double_zero v h0] at h
    exact absurd h.1 (by decide)
  · have hform := operator_double_nonzero v hv h0
    obtain ⟨he, hm, hs⟩ := hv
    obtain ⟨-, h2, -⟩ := double_fields_of_sum v.data_.sign (v.data_.exponent + 894)
      (v.data_.mantissa * 2 ^ 13) hs (by omega) (by omega)
    rw [← hform] at h2
    omega

/-! ## Comparison and arithmetic operators -/

/-- C11: for all Real48 values `a` and `b`, `a < b` holds exactly when the value
of the float64 decoding of `a` is strictly less than that of `b`, and `b > a`
holds under the same condition, so `a < b` iff `b > a`; for `a = encode(1.0)`
and `b = encode(2.0)` both `a < b` and `b > a` are true. -/
theorem lt_gt_compare_decoded (a b : Real48) (ha : a.wf) (hb : b.wf) :
    (a.operator_lt b = true ↔
      double_value a.operator_double < double_value b.operator_double) ∧
    (b.operator_gt a = true ↔
      double_value a.operator_double < double_value b.operator_double) ∧
    (a.operator_lt b = true ↔ b.operator_gt a = true) ∧
    double_value 0x3FF0000000000000 = 1 ∧ double_value 0x4000000000000000 = 2 ∧
    (∃ one two : Real48,
      Real48.Real48_double 0x3FF0000000000000 = Except.ok one ∧
      Real48.Real48_double 0x4000000000000000 = Except.ok two ∧
      one.operator_lt two = true ∧ two.operator_gt one = true) := by
  have na := operator_double_not_nan a ha
  have nb := operator_double_not_nan b hb
  have h1 : a.operator_lt b = true ↔
      double_value a.operator_double < double_value b.operator_double :=
    binary64_lt_iff _ _ na nb
  have h2 : b.operator_gt a = true ↔
      double_value a.operator_double < double_value b.operator_double :=
    binary64_gt_iff _ _ nb na
  refine ⟨h1, h2, h1.trans h2.symm, ?_, ?_, ⟨⟨129, 0, 0⟩⟩, ⟨⟨130, 0, 0⟩⟩, by rfl, by rfl, by decide,
    by decide⟩
  · have h := double_value_of_fields 0 1023 0 (by decide) (by decide) (by decide) (by decide)
    have hb : 0 * 2 ^ 63 + 1023 * 2 ^ 52 + 0 = 0x3FF0000000000000 := by decide
    rw [hb] at h
    rw [h]
    norm_num
  · have h := double_value_of_fields 0 1024 0 (by decide) (by decide) (by decide) (by decide)
    have hb : 0 * 2 ^ 63 + 1024 * 2 ^ 52 + 0 = 0x4000000000000000 := by decide
    rw [hb] at h
    rw [h]
    norm_num

theorem lt_gt_compare_decoded_witness :
    (Real48.operator_lt ⟨⟨129, 0, 1⟩⟩ ⟨⟨3, 77, 0⟩⟩ = true ↔
      Real48.operator_gt ⟨⟨3, 77, 0⟩⟩ ⟨⟨129, 0, 1⟩⟩ = true) :=
  (lt_gt_compare_decoded ⟨⟨129, 0, 1⟩⟩ ⟨⟨3, 77, 0⟩⟩ (by decide) (by decide)).2.2.1

/-- The host sum `1.5 + 2.5` is the pattern of `4.0`. -/
theorem binary64_add_example :
    binary64.add 0x3FF8000000000000 0x4004000000000000 = 0x4010000000000000 := by
  decide

set_option maxRecDepth 8192 in
/-- The host product `1.5 * 2.5` is the pattern of `3.75`. -/
theorem binary64_mul_example :
    binary64.mul 0x3FF8000000000000 0x4004000000000000 = 0x400E000000000000 := by
  decide

/-- C12: with `a = encode(1.5)` and `b = encode(2.5)` (float64 encoder), `a + b`
succeeds and decodes to the float64 4.0, and `a * b` succeeds and decodes to the
float64 3.75; each operator decodes both operands to float64, applies the
float64 operation and re-encodes the result with the float64 encoder. -/
theorem add_mul_example :
    double_value 0x3FF8000000000000 = 3 / 2 ∧ double_value 0x4004000000000000 = 5 / 2 ∧
    double_value 0x4010000000000000 = 4 ∧ double_value 0x400E000000000000 = 15 / 4 ∧
    (∃ a b s p : Real48,
      Real48.Real48_double 0x3FF8000000000000 = Except.ok a ∧
      Real48.Real48_double 0x4004000000000000 = Except.ok b ∧
      a.operator_add b = Except.ok s ∧ s.operator_double = 0x4010000000000000 ∧
      a.operator_mul b = Except.ok p ∧ p.operator_double = 0x400E000000000000) ∧
    (∀ x y : Real48, x.operator_add y =
      Real48.Real48_double (binary64.add x.operator_double y.operator_double)) ∧
    (∀ x y : Real48, x.operator_mul y =
      Real48.Real48_double (binary64.mul x.operator_double y.operator_double)) := by
  refine ⟨?_, ?_, ?_, ?_, ⟨⟨⟨129, 2 ^ 38, 0⟩⟩, ⟨⟨130, 2 ^ 37, 0⟩⟩, ⟨⟨131, 0, 0⟩⟩,
    ⟨⟨130, 7 * 2 ^ 36, 0⟩⟩, by rfl, by rfl, ?_, by rfl, ?_, by rfl⟩,
    fun _ _ => rfl, fun _ _ => rfl⟩
  · have h := double_value_of_fields 0 1023 (2 ^ 51) (by decide) (by decide) (by decide)
      (by decide)
    have hb : 0 * 2 ^ 63 + 1023 * 2 ^ 52 + 2 ^ 51 = 0x3FF8000000000000 := by decide
    rw [hb] at h
    rw [h]
    norm_num
  · have h := double_value_of_fields 0 1024 (2 ^ 50) (by decide) (by decide) (by decide)
      (by decide)
    have hb : 0 * 2 ^ 63 + 1024 * 2 ^ 52 + 2 ^ 50 = 0x4004000000000000 := by decide
    rw [hb] at h
    rw [h]
    norm_num
  · have h := double_value_of_fields 0 1025 0 (by decide) (by decide) (by decide) (by decide)
    have hb : 0 * 2 ^ 63 + 1025 * 2 ^ 52 + 0 = 0x4010000000000000 := by decide
    rw [hb] at h
    rw [h]
    norm_num
  · have h := double_value_of_fields 0 1024 (7 * 2 ^ 49) (by decide) (by decide) (by decide)
      (by decide)
    have hb : 0 * 2 ^ 63 + 1024 * 2 ^ 52 + 7 * 2 ^ 49 = 0x400E000000000000 := by decide
    rw [hb] at h
    rw [h]
    norm_num
  · have hs := binary64_add_example
    have ha : Real48.operator_double ⟨⟨129, 2 ^ 38, 0⟩⟩ = 0x3FF8000000000000 := by rfl
    have hb : Real48.operator_double ⟨⟨130, 2 ^ 37, 0⟩⟩ = 0x4004000000000000 := by rfl
    unfold Real48.operator_add
    simp only [ha, hb, hs]
    rfl
  · have hp := binary64_mul_example
    have ha : Real48.operator_double ⟨⟨129, 2 ^ 38, 0⟩⟩ = 0x3FF8000000000000 := by rfl
    have hb : Real48.operator_double ⟨⟨130, 2 ^ 37, 0⟩⟩ = 0x4004000000000000 := by rfl
    unfold Real48.operator_mul
    simp only [ha, hb, hp]
    rfl

/-! ## Named constants -/

/-- The host difference `(1 + 2^-39) - 1` is the pattern of `2^-39`. -/
theorem binary64_sub_example :
    binary64.sub 0x3FF0000000002000 0x3FF0000000000000 = 0x3D80000000000000 := by
  decide

/-- C14: `min()` has sign 0, exponent 1, mantissa 0 and decodes to `2^-128`;
`max()` has sign 0, exponent 255, mantissa `2^39 - 1` and decodes to
`(2 - 2^-39) * 2^126`; `epsilon()` has sign 0, exponent 90, mantissa 0 and
decodes to `2^-39`, which is the difference between the Real48 with exponent
129 and mantissa 1 and `encode(1.0)` (exponent 129, mantissa 0), both as exact
values and as computed by the binary `operator-`. -/
theorem named_constants :
    Real48.min = ⟨⟨1, 0, 0⟩⟩ ∧
    double_value Real48.min.operator_double = (2 : ℚ) ^ (-128 : ℤ) ∧
    Real48.max = ⟨⟨255, 2 ^ 39 - 1, 0⟩⟩ ∧
    double_value Real48.max.operator_double = (2 - (2 : ℚ) ^ (-39 : ℤ)) * 2 ^ 126 ∧
    Real48.epsilon = ⟨⟨90, 0, 0⟩⟩ ∧
    double_value Real48.epsilon.operator_double = (2 : ℚ) ^ (-39 : ℤ) ∧
    double_value 0x3FF0000000000000 = 1 ∧
    Real48.Real48_double 0x3FF0000000000000 = Except.ok ⟨⟨129, 0, 0⟩⟩ ∧
    double_value (Real48.operator_double ⟨⟨129, 1, 0⟩⟩)
      - double_value (Real48.operator_double ⟨⟨129, 0, 0⟩⟩)
      = double_value Real48.epsilon.operator_double ∧
    Real48.operator_sub ⟨⟨129, 1, 0⟩⟩ ⟨⟨129, 0, 0⟩⟩ = Except.ok Real48.epsilon := by
  have hmin : Real48.min.operator_double = 0 * 2 ^ 63 + 895 * 2 ^ 52 + 0 := by rfl
  have hmax : Real48.max.operator_double = 0 * 2 ^ 63 + 1149 * 2 ^ 52 + (2 ^ 52 - 2 ^ 13) := by
    rfl
  have heps : Real48.epsilon.operator_double = 0 * 2 ^ 63 + 984 * 2 ^ 52 + 0 := by rfl
  have hone : (0x3FF0000000000000 : Nat) = 0 * 2 ^ 63 + 1023 * 2 ^ 52 + 0 := by decide
  have hone' : Real48.operator_double ⟨⟨129, 0, 0⟩⟩ = 0 * 2 ^ 63 + 1023 * 2 ^ 52 + 0 := by rfl
  have hnext : Real48.operator_double ⟨⟨129, 1, 0⟩⟩ = 0 * 2 ^ 63 + 1023 * 2 ^ 52 + 2 ^ 13 := by
    rfl
  have vmin := double_value_of_fields 0 895 0 (by decide) (by decide) (by decide) (by decide)
  have vmax := double_value_of_fields 0 1149 (2 ^ 52 - 2 ^ 13) (by decide) (by decide)
    (by decide) (by decide)
  have veps := double_value_of_fields 0 984 0 (by decide) (by decide) (by decide) (by decide)
  have vone := double_value_of_fields 0 1023 0 (by decide) (by decide) (by decide) (by decide)
  have vnext := double_value_of_fields 0 1023 (2 ^ 13) (by decide) (by decide) (by decide)
    (by decide)
  refine ⟨rfl, ?_, rfl, ?_, rfl, ?_, ?_, by rfl, ?_, ?_⟩
  · rw [hmin, vmin]; norm_num
  · rw [hmax, vmax]; norm_num
  · rw [heps, veps]; norm_num
  · rw [hone, vone]; norm_num
  · rw [hnext, hone', heps, vnext, vone, veps]; norm_num
  · have ha : Real48.operator_double ⟨⟨129, 1, 0⟩⟩ = 0x3FF0000000002000 := by rfl
    have hb : Real48.operator_double ⟨⟨129, 0, 0⟩⟩ = 0x3FF0000000000000 := by rfl
    unfold Real48.operator_sub
    simp only [ha, hb, binary64_sub_example]
    rfl

/-! ## Mantissa mapping -/

/-- The value of a normal binary32 bit pattern given by its fields. -/
theorem float_value_of_fields (s e f : Nat) (hs : s < 2) (he0 : e ≠ 0) (he : e < 2 ^ 8)
    (hf : f < 2 ^ 23) :
    float_value (s * 2 ^ 31 + e * 2 ^ 23 + f) =
      (if s = 1 then -1 else 1) * (((2 : ℚ) ^ 23 + (f : ℚ)) * (2 : ℚ) ^ ((e : ℤ) - 150)) := by
  obtain ⟨h1, h2, h3⟩ := float_fields_of_sum s e f hs he hf
  unfold float_value
  simp only [h1, h2, h3, if_neg he0]
  by_cases h : s = 1
  · simp only [if_pos h]; push_cast; ring
  · simp only [if_neg h]; push_cast; ring

/-- C16: for every normal float32 bit pattern `x` that the float32 encoder
accepts, the encoded mantissa has its low 16 bits zero and its high 23 bits
equal to the fraction of `x`, and the float64 decoding of the encoded value has
exactly the value of `x`. -/
theorem float_widening_exact (x : Nat) (hx : x < 2 ^ 32) (h1 : 1 ≤ float_exponent x)
    (h2 : float_exponent x ≤ 254) (r : Real48) (henc : Real48.Real48_float x = Except.ok r) :
    r.data_.mantissa % 2 ^ 16 = 0 ∧ r.data_.mantissa / 2 ^ 16 = float_fraction x ∧
    double_value r.operator_double = float_value x := by
  rw [Real48_float_normal x hx h1 h2] at henc
  have hs : float_sign x < 2 := by rw [float_sign_eq]; omega
  have hf : float_fraction x < 2 ^ 23 := by rw [float_fraction_eq]; omega
  by_cases h : float_exponent x ≤ 253
  · rw [if_pos h] at henc
    injection henc with henc
    subst henc
    refine ⟨by simp only; omega, by simp only; omega, ?_⟩
    rw [operator_double_nonzero _ ⟨by simp only; omega, by simp only; omega, hs⟩
      (by simp only; omega)]
    simp only
    have hv := float_value_of_fields (float_sign x) (float_exponent x) (float_fraction x)
      hs (by omega) (by omega) hf
    rw [← float_fields x hx] at hv
    rw [hv, double_value_of_fields _ _ _ hs (by omega) (by omega) (by omega)]
    have hp : (2 : ℚ) ^ ((float_exponent x : ℤ) - 150) =
        2 ^ 29 * (2 : ℚ) ^ (((float_exponent x + 2 + 894 : Nat) : ℤ) - 1075) := by
      have : ((float_exponent x : ℤ) - 150) =
          ((29 : Nat) : ℤ) + (((float_exponent x + 2 + 894 : Nat) : ℤ) - 1075) := by
        push_cast; ring
      rw [this, zpow_add₀ (by norm_num), zpow_natCast]
    rw [hp]
    push_cast
    ring
  · rw [if_neg h] at henc
    cases henc

theorem float_widening_exact_witness :
    double_value (Real48.operator_double ⟨⟨129, 2 ^ 38, 1⟩⟩) = float_value 0xBFC00000 :=
  (float_widening_exact 0xBFC00000 (by decide) (by decide) (by decide) ⟨⟨129, 2 ^ 38, 1⟩⟩
    (by rfl)).2.2

/-- C17: for every normal float64 bit pattern `x` that the float64 encoder
accepts, the float64 decoding of the encoded value is `x` with its low 13
fraction bits cleared: same sign, same biased exponent, magnitude at most
`|x|`, and equal to `x` exactly when the low 13 fraction bits of `x` are zero. -/
theorem double_truncation (x : Nat) (hx : x < 2 ^ 64) (h1 : 1 ≤ double_exponent x)
    (h2 : double_exponent x ≤ 2046) (r : Real48)
    (henc : Real48.Real48_double x = Except.ok r) :
    r.operator_double = x / 2 ^ 13 * 2 ^ 13 ∧
    double_sign r.operator_double = double_sign x ∧
    double_exponent r.operator_double = double_exponent x ∧
    double_fraction r.operator_double = double_fraction x / 2 ^ 13 * 2 ^ 13 ∧
    |double_value r.operator_double| ≤ |double_value x| ∧
    (r.operator_double = x ↔ double_fraction x % 2 ^ 13 = 0) ∧
    (double_value r.operator_double = double_value x ↔ double_fraction x % 2 ^ 13 = 0) := by
  rw [Real48_double_normal x hx h1 h2] at henc
  have hs : double_sign x < 2 := by rw [double_sign_eq]; omega
  have hf : double_fraction x < 2 ^ 52 := by rw [double_fraction_eq]; omega
  by_cases h : 895 ≤ double_exponent x ∧ double_exponent x ≤ 1149
  · rw [if_pos h] at henc
    injection henc with henc
    subst henc
    have hform := operator_double_nonzero
      (⟨⟨double_exponent x - 894, double_fraction x / 2 ^ 13, double_sign x⟩⟩ : Real48)
      ⟨by simp only; omega, by simp only; omega, hs⟩ (by simp only; omega)
    simp only at hform
    have he : double_exponent x - 894 + 894 = double_exponent x := by omega
    rw [he] at hform
    have hx' := double_fields x hx
    obtain ⟨g1, g2, g3⟩ := double_fields_of_sum (double_sign x) (double_exponent x)
      (double_fraction x / 2 ^ 13 * 2 ^ 13) hs (by omega) (by omega)
    rw [← hform] at g1 g2 g3
    have hv := double_value_of_fields (double_sign x) (double_exponent x) (double_fraction x)
      hs (by omega) (by omega) hf
    rw [← hx'] at hv
    have hv2 := double_value_of_fields (double_sign x) (double_exponent x)
      (double_fraction x / 2 ^ 13 * 2 ^ 13) hs (by omega) (by omega) (by omega)
    rw [← hform] at hv2
    have hp : (0 : ℚ) < (2 : ℚ) ^ ((double_exponent x : ℤ) - 1075) := by positivity
    have hle : ((double_fraction x / 2 ^ 13 * 2 ^ 13 : Nat) : ℚ) ≤ (double_fraction x : ℚ) := by
      have : double_fraction x / 2 ^ 13 * 2 ^ 13 ≤ double_fraction x := by omega
      exact_mod_cast this
    have hq0 : (0 : ℚ) ≤ ((double_fraction x / 2 ^ 13 * 2 ^ 13 : Nat) : ℚ) := Nat.cast_nonneg _
    have hmag : ∀ c : ℚ, (c = -1 ∨ c = 1) → ∀ g : ℚ, 0 ≤ g →
        |c * (((2 : ℚ) ^ 52 + g) * (2 : ℚ) ^ ((double_exponent x : ℤ) - 1075))| =
          ((2 : ℚ) ^ 52 + g) * (2 : ℚ) ^ ((double_exponent x : ℤ) - 1075) := by
      intro c hc g hg
      rcases hc with rfl | rfl
      · rw [neg_one_mul, abs_neg]; exact abs_of_nonneg (by positivity)
      · rw [one_mul]; exact abs_of_nonneg (by positivity)
    have hc : ((if double_sign x = 1 then -1 else 1 : ℚ) = -1 ∨
        (if double_sign x = 1 then -1 else 1 : ℚ) = 1) := by
      by_cases hs1 : double_sign x = 1
      · left; simp [hs1]
      · right; simp [hs1]
    have hcne : (if double_sign x = 1 then -1 else 1 : ℚ) ≠ 0 := by
      rcases hc with h | h <;> rw [h] <;> norm_num
    refine ⟨by rw [hform]; omega, g1, g2, g3, ?_, ?_, ?_⟩
    · rw [hv, hv2, hmag _ hc _ hq0, hmag _ hc _ (Nat.cast_nonneg _)]
      apply mul_le_mul_of_nonneg_right _ hp.le
      linarith
    · rw [hform]; omega
    · rw [hv, hv2]
      constructor
      · intro heq
        have h3 := mul_left_cancel₀ hcne heq
        have h4 := mul_right_cancel₀ hp.ne' h3
        have h5 : ((double_fraction x / 2 ^ 13 * 2 ^ 13 : Nat) : ℚ) = (double_fraction x : ℚ) := by
          linarith
        have h6 : double_fraction x / 2 ^ 13 * 2 ^ 13 = double_fraction x := by
          exact_mod_cast h5
        omega
      · intro hz
        have h6 : double_fraction x / 2 ^ 13 * 2 ^ 13 = double_fraction x := by omega
        rw [h6]
  · rw [if_neg h] at henc
    cases henc

theorem double_truncation_witness :
    Real48.operator_double ⟨⟨129, 2 ^ 38, 0⟩⟩ = 0x3FF8000000001FFF / 2 ^ 13 * 2 ^ 13 ∧
    ¬ Real48.operator_double ⟨⟨129, 2 ^ 38, 0⟩⟩ = 0x3FF8000000001FFF :=
  have h := double_truncation 0x3FF8000000001FFF (by decide) (by decide) (by decide)
    ⟨⟨129, 2 ^ 38, 0⟩⟩ (by rfl)
  ⟨h.1, fun hc => absurd (h.2.2.2.2.2.1.mp hc) (by decide)⟩

/-- C18: for every normal float32 bit pattern `x` with biased exponent `e32` in
1..254, the float32 encoder fails with the exponent-out-of-range error exactly
when `e32 = 254`, that is exactly when `|x| ≥ 2^127` (which includes the largest
finite float32); the check `e48 < 1` never fires because `e48 = e32 + 2 ≥ 3`;
for every other normal input the encoder succeeds. -/
theorem float_encoder_exponent_range (x : Nat) (hx : x < 2 ^ 32) (h1 : 1 ≤ float_exponent x)
    (h2 : float_exponent x ≤ 254) :
    (Real48.Real48_float x = Except.error OverflowError.exponentOutOfRange ↔
      float_exponent x = 254) ∧
    (float_exponent x = 254 ↔ (2 : ℚ) ^ 127 ≤ |float_value x|) ∧
    (float_exponent x : Int) - 127 + 129 = (float_exponent x : Int) + 2 ∧
    ¬ ((float_exponent x : Int) - 127 + 129 < 1) ∧
    (3 : Int) ≤ (float_exponent x : Int) - 127 + 129 ∧
    (float_exponent x ≠ 254 → ∃ r : Real48, Real48.Real48_float x = Except.ok r ∧
      r.data_.exponent = float_exponent x + 2) ∧
    Real48.Real48_float 0x7F7FFFFF = Except.error OverflowError.exponentOutOfRange := by
  have hform := Real48_float_normal x hx h1 h2
  have hs : float_sign x < 2 := by rw [float_sign_eq]; omega
  have hf : float_fraction x < 2 ^ 23 := by rw [float_fraction_eq]; omega
  refine ⟨?_, ?_, by omega, by omega, by omega, ?_, by rfl⟩
  · by_cases h : float_exponent x ≤ 253
    · rw [hform, if_pos h]
      constructor
      · intro hc; cases hc
      · intro hc; omega
    · rw [hform, if_neg h]
      exact ⟨fun _ => by omega, fun _ => rfl⟩
  · have hv := float_value_of_fields (float_sign x) (float_exponent x) (float_fraction x)
      hs (by omega) (by omega) hf
    rw [← float_fields x hx] at hv
    have hp : (0 : ℚ) < (2 : ℚ) ^ ((float_exponent x : ℤ) - 150) := by positivity
    have hf0 : (0 : ℚ) ≤ (float_fraction x : ℚ) := Nat.cast_nonneg _
    have hfq : (float_fraction x : ℚ) < 2 ^ 23 := by exact_mod_cast hf
    have habs : |float_value x| =
        ((2 : ℚ) ^ 23 + (float_fraction x : ℚ)) * (2 : ℚ) ^ ((float_exponent x : ℤ) - 150) := by
      rw [hv]
      by_cases hs1 : float_sign x = 1
      · rw [if_pos hs1, neg_one_mul, abs_neg]; exact abs_of_nonneg (by positivity)
      · rw [if_neg hs1, one_mul]; exact abs_of_nonneg (by positivity)
    rw [habs]
    constructor
    · intro he
      rw [he]
      have : (2 : ℚ) ^ (((254 : Nat) : ℤ) - 150) = 2 ^ 104 := by
        rw [show (((254 : Nat) : ℤ) - 150) = ((104 : Nat) : ℤ) by norm_num, zpow_natCast]
      rw [this]
      nlinarith
    · intro hge
      by_contra hne
      have hle : ((float_exponent x : ℤ) - 150) ≤ ((103 : Nat) : ℤ) := by omega
      have h103 : (2 : ℚ) ^ ((float_exponent x : ℤ) - 150) ≤ 2 ^ 103 := by
        have := zpow_le_zpow_right₀ (show (1 : ℚ) ≤ 2 by norm_num) hle
        rwa [zpow_natCast] at this
      have h23 : (0 : ℚ) < (2 : ℚ) ^ 23 := pow_pos (by norm_num) 23
      have h24 : (2 : ℚ) ^ 24 = 2 ^ 23 + 2 ^ 23 := by norm_num
      have ha0 : (0 : ℚ) ≤ (2 : ℚ) ^ 23 + (float_fraction x : ℚ) := add_nonneg h23.le hf0
      have ha : (2 : ℚ) ^ 23 + (float_fraction x : ℚ) < 2 ^ 24 := by rw [h24]; linarith
      have hlt : ((2 : ℚ) ^ 23 + (float_fraction x : ℚ)) *
          (2 : ℚ) ^ ((float_exponent x : ℤ) - 150) < 2 ^ 24 * 2 ^ 103 :=
        calc ((2 : ℚ) ^ 23 + (float_fraction x : ℚ)) * (2 : ℚ) ^ ((float_exponent x : ℤ) - 150)
            ≤ ((2 : ℚ) ^ 23 + (float_fraction x : ℚ)) * 2 ^ 103 :=
              mul_le_mul_of_nonneg_left h103 ha0
          _ < 2 ^ 24 * 2 ^ 103 := mul_lt_mul_of_pos_right ha (by positivity)
      have h127 : (2 : ℚ) ^ 24 * 2 ^ 103 = 2 ^ 127 := by rw [← pow_add]
      rw [h127] at hlt
      exact absurd hge (not_le.mpr hlt)
  · intro hne
    rw [hform, if_pos (by omega)]
    exact ⟨_, rfl, rfl⟩

theorem float_encoder_exponent_range_witness :
    Real48.Real48_float 0xFF000000 = Except.error OverflowError.exponentOutOfRange ∧
    (2 : ℚ) ^ 127 ≤ |float_value 0xFF000000| :=
  have h := float_encoder_exponent_range 0xFF000000 (by decide) (by decide) (by decide)
  ⟨h.1.mpr (by decide), h.2.1.mp (by decide)⟩

/-- The float64 encoder only returns values allowed by the bit-fields. -/
theorem Real48_double_wf (x : Nat) (r : Real48)
    (henc : Real48.Real48_double x = Except.ok r) : r.wf := by
  unfold Real48.Real48_double at henc
  simp only at henc
  split at henc
  · cases henc
  · split at henc
    · cases henc
    · split at henc
      · injection henc with henc; subst henc; decide
      · split at henc
        · cases henc
        · split at henc
          · cases henc
          · injection henc with henc; subst henc
            refine ⟨?_, ?_, ?_⟩
            · simp only; omega
            · simp only; omega
            · simp only; omega

/-- Decoding to float64 and encoding again gives back a value allowed by the
bit-fields that satisfies the zero/sign predicate. -/
theorem Real48_double_operator_double (r : Real48) (hr : r.wf) (hc : r.canonical) :
    Real48.Real48_double r.operator_double = Except.ok r := by
  by_cases h0 : r.data_.exponent = 0
  · rw [operator_double_zero r h0]
    obtain ⟨hs, hm⟩ := hc h0
    rw [zero_canon_double 0 (Or.inl (by decide))]
    obtain ⟨⟨e, m, s⟩⟩ := r
    simp only at h0 hs hm
    subst h0 hs hm
    rfl
  · have hform := operator_double_nonzero r hr h0
    obtain ⟨he, hm, hs⟩ := hr
    obtain ⟨g1, g2, g3⟩ := double_fields_of_sum r.data_.sign (r.data_.exponent + 894)
      (r.data_.mantissa * 2 ^ 13) hs (by omega) (by omega)
    rw [← hform] at g1 g2 g3
    rw [Real48_double_normal r.operator_double (by rw [hform]; omega) (by omega) (by omega),
      if_pos (by omega), g1, g2, g3]
    obtain ⟨⟨e, m, s⟩⟩ := r
    simp only
    have a1 : e + 894 - 894 = e := by omega
    have a2 : m * 2 ^ 13 / 2 ^ 13 = m := by omega
    rw [a1, a2]

/-- C19: for every Real48 value `r` with "exponent = 0 implies sign = 0 and
mantissa = 0", encoding the float64 decoding of `r` with the float64 encoder
succeeds and returns `r` itself; hence encoding the decoding of an encoder
result returns that result. -/
theorem decode_encode_identity (r : Real48) (hr : r.wf) (hc : r.canonical) (x : Nat)
    (r0 : Real48) (henc : Real48.Real48_double x = Except.ok r0) :
    Real48.Real48_double r.operator_double = Except.ok r ∧
    Real48.Real48_double r0.operator_double = Real48.Real48_double x :=
  ⟨Real48_double_operator_double r hr hc,
    henc.symm ▸ Real48_double_operator_double r0 (Real48_double_wf x r0 henc)
      (Real48_double_canonical x r0 henc)⟩

theorem decode_encode_identity_witness :
    Real48.Real48_double (Real48.operator_double ⟨⟨255, 2 ^ 39 - 1, 1⟩⟩)
      = Except.ok ⟨⟨255, 2 ^ 39 - 1, 1⟩⟩ :=
  (decode_encode_identity ⟨⟨255, 2 ^ 39 - 1, 1⟩⟩ (by decide) (by decide) 0x3FF8000000001FFF
    ⟨⟨129, 2 ^ 38, 0⟩⟩ (by rfl)).1

/-! ## Order preservation of the float64 encoder -/

/-- The magnitude in units of `2^-1075` is strictly increasing in the pair
(exponent field, fraction field) ordered lexicographically. -/
theorem double_units_strict_mono (e1 f1 e2 f2 : Nat) (h1 : f1 < 2 ^ 52)
    (h : e1 < e2 ∨ (e1 = e2 ∧ f1 < f2)) : double_units e1 f1 < double_units e2 f2 := by
  unfold double_units
  rcases h with h | ⟨rfl, h⟩
  · have he2 : e2 ≠ 0 := by omega
    rw [if_neg he2, if_neg he2]
    by_cases he1 : e1 = 0
    · rw [if_pos he1, if_pos he1]
      have hp : 2 ^ 1 ≤ 2 ^ e2 := Nat.pow_le_pow_right (by norm_num) (by omega)
      calc f1 * 2 ^ 1 < 2 ^ 52 * 2 ^ 1 := Nat.mul_lt_mul_of_pos_right h1 (by norm_num)
        _ ≤ 2 ^ 52 * 2 ^ e2 := Nat.mul_le_mul_left _ hp
        _ ≤ (2 ^ 52 + f2) * 2 ^ e2 := Nat.mul_le_mul_right _ (by omega)
    · rw [if_neg he1, if_neg he1]
      have hp : 2 ^ (e1 + 1) ≤ 2 ^ e2 := Nat.pow_le_pow_right (by norm_num) (by omega)
      calc (2 ^ 52 + f1) * 2 ^ e1 < (2 ^ 52 + 2 ^ 52) * 2 ^ e1 :=
            Nat.mul_lt_mul_of_pos_right (by omega) (by positivity)
        _ = 2 ^ 52 * 2 ^ (e1 + 1) := by rw [pow_succ]; ring
        _ ≤ 2 ^ 52 * 2 ^ e2 := Nat.mul_le_mul_left _ hp
        _ ≤ (2 ^ 52 + f2) * 2 ^ e2 := Nat.mul_le_mul_right _ (by omega)
  · apply Nat.mul_lt_mul_of_pos_right _ (by positivity)
    split <;> omega

/-- Comparing magnitudes compares (exponent field, fraction field). -/
theorem double_units_le_lex (e1 f1 e2 f2 : Nat) (h2 : f2 < 2 ^ 52)
    (h : double_units e1 f1 ≤ double_units e2 f2) : e1 < e2 ∨ (e1 = e2 ∧ f1 ≤ f2) := by
  by_contra hc
  have hlt := double_units_strict_mono e2 f2 e1 f1 h2 (by omega)
  omega

theorem double_units_mono (e1 f1 e2 f2 : Nat) (h1 : f1 < 2 ^ 52)
    (h : e1 < e2 ∨ (e1 = e2 ∧ f1 ≤ f2)) : double_units e1 f1 ≤ double_units e2 f2 := by
  rcases h with h | ⟨rfl, h⟩
  · exact (double_units_strict_mono e1 f1 e2 f2 h1 (Or.inl h)).le
  · rcases Nat.eq_or_lt_of_le h with rfl | h'
    · exact le_refl _
    · exact (double_units_strict_mono e1 f1 e1 f2 h1 (Or.inr ⟨rfl, h'⟩)).le

theorem double_units_pos (e f : Nat) (he : e ≠ 0) : 0 < double_units e f := by
  unfold double_units
  rw [if_neg he, if_neg he]
  positivity

/-- The integer value of a binary64 pattern in units of `2^-1075`. -/
theorem binary64_scaled_units (x : Nat) :
    binary64.scaled x (-1075) = (if double_sign x = 1 then -1 else 1) *
      ((double_units (double_exponent x) (double_fraction x) : Nat) : Int) := by
  unfold FpFormat.scaled double_units
  rw [binary64_sign_of, binary64_sig, binary64_exp2]
  by_cases he : double_exponent x = 0
  · simp only [he, if_true]
    norm_num
  · simp only [he, if_false]
    have : ((double_exponent x : Int) - 1075 - -1075).toNat = double_exponent x := by omega
    rw [this]

/-- Values of binary64 patterns compare like their integers in units of
`2^-1075`. -/
theorem double_value_le_iff_scaled (x y : Nat) :
    double_value x ≤ double_value y ↔ binary64.scaled x (-1075) ≤ binary64.scaled y (-1075) := by
  have hx : (-1075 : Int) ≤ binary64.exp2 x := by rw [binary64_exp2]; split <;> omega
  have hy : (-1075 : Int) ≤ binary64.exp2 y := by rw [binary64_exp2]; split <;> omega
  rw [double_value_eq_scaled x _ hx, double_value_eq_scaled y _ hy]
  have hp : (0 : ℚ) < (2 : ℚ) ^ (-1075 : Int) := by positivity
  rw [mul_le_mul_right hp, Int.cast_le]

/-- What the float64 encoder returns when it succeeds. -/
theorem Real48_double_ok_cases (x : Nat) (hx : x < 2 ^ 64) (r : Real48)
    (henc : Real48.Real48_double x = Except.ok r) :
    (double_exponent x = 0 ∧ r = ⟨⟨0, 0, 0⟩⟩) ∨
    (895 ≤ double_exponent x ∧ double_exponent x ≤ 1149 ∧
      r = ⟨⟨double_exponent x - 894, double_fraction x / 2 ^ 13, double_sign x⟩⟩) := by
  have hlt : double_exponent x < 2 ^ 11 := by rw [double_exponent_eq]; omega
  by_cases h0 : double_exponent x = 0
  · left
    have hcls : classify_ieee_double x = FpClass.FP_ZERO ∨
        classify_ieee_double x = FpClass.FP_SUBNORMAL := by
      unfold classify_ieee_double
      rw [if_neg (by omega), if_pos h0]
      by_cases hf : double_fraction x = 0
      · left; rw [if_pos hf]
      · right; rw [if_neg hf]
    rw [zero_canon_double x hcls] at henc
    injection henc with henc
    exact ⟨h0, henc.symm⟩
  · by_cases h7 : double_exponent x = 2047
    · exfalso
      unfold Real48.Real48_double classify_ieee_double at henc
      rw [if_pos h7] at henc
      by_cases hf : double_fraction x = 0
      · simp [hf] at henc
      · simp [hf] at henc
    · right
      rw [Real48_double_normal x hx (by omega) (by omega)] at henc
      by_cases h : 895 ≤ double_exponent x ∧ double_exponent x ≤ 1149
      · rw [if_pos h] at henc
        injection henc with henc
        exact ⟨h.1, h.2, henc.symm⟩
      · rw [if_neg h] at henc
        cases henc

/-- The integer value, in units of `2^-1075`, of the float64 decoding of an
encoder result: the flushed or truncated magnitude with the sign of the input. -/
theorem scaled_decoded (x : Nat) (hx : x < 2 ^ 64) (r : Real48)
    (henc : Real48.Real48_double x = Except.ok r) :
    binary64.scaled r.operator_double (-1075) = (if double_sign x = 1 then -1 else 1) *
      ((if double_exponent x = 0 then 0
        else double_units (double_exponent x) (double_fraction x / 2 ^ 13 * 2 ^ 13) : Nat) : Int) := by
  have hs : double_sign x < 2 := by rw [double_sign_eq]; omega
  have hf : double_fraction x < 2 ^ 52 := by rw [double_fraction_eq]; omega
  rcases Real48_double_ok_cases x hx r henc with ⟨h0, rfl⟩ | ⟨hlo, hhi, rfl⟩
  · rw [if_pos h0, operator_double_zero _ rfl, binary64_scaled_units]
    have e0 : double_exponent 0 = 0 := by decide
    have f0 : double_fraction 0 = 0 := by decide
    rw [e0, f0]
    simp [double_units]
  · rw [if_neg (show ¬ double_exponent x = 0 by omega), binary64_scaled_units]
    have hform := operator_double_nonzero
      (⟨⟨double_exponent x - 894, double_fraction x / 2 ^ 13, double_sign x⟩⟩ : Real48)
      ⟨by simp only; omega, by simp only; omega, hs⟩ (by simp only; omega)
    simp only at hform
    have he : double_exponent x - 894 + 894 = double_exponent x := by omega
    rw [he] at hform
    obtain ⟨g1, g2, g3⟩ := double_fields_of_sum (double_sign x) (double_exponent x)
      (double_fraction x / 2 ^ 13 * 2 ^ 13) hs (by omega) (by omega)
    rw [← hform] at g1 g2 g3
    rw [g1, g2, g3]

/-- C20: the float64 encoder is order-preserving: for float64 bit patterns `x`
and `y` with `x <= y` that the encoder both accepts (finite values, including
zeros and subnormals, which flush to zero), the float64 decoding of `encode(x)`
is at most that of `encode(y)`, and `encode(y) < encode(x)` is false. -/
theorem double_encoder_monotone (x y : Nat) (hx : x < 2 ^ 64) (hy : y < 2 ^ 64)
    (rx ry : Real48) (hex : Real48.Real48_double x = Except.ok rx)
    (hey : Real48.Real48_double y = Except.ok ry) (hle : binary64.le x y = true) :
    double_value x ≤ double_value y ∧
    double_value rx.operator_double ≤ double_value ry.operator_double ∧
    ry.operator_lt rx = false := by
  have hfx : double_fraction x < 2 ^ 52 := by rw [double_fraction_eq]; omega
  have hfy : double_fraction y < 2 ^ 52 := by rw [double_fraction_eq]; omega
  have hsx : double_sign x < 2 := by rw [double_sign_eq]; omega
  have hsy : double_sign y < 2 := by rw [double_sign_eq]; omega
  have hex47 : double_exponent x ≠ 2047 := by
    rcases Real48_double_ok_cases x hx rx hex with ⟨h, -⟩ | ⟨-, h, -⟩ <;> omega
  have hey47 : double_exponent y ≠ 2047 := by
    rcases Real48_double_ok_cases y hy ry hey with ⟨h, -⟩ | ⟨-, h, -⟩ <;> omega
  have nx : binary64.is_nan x = false := by
    rw [Bool.eq_false_iff]; intro h; rw [binary64_is_nan] at h; exact hex47 h.1
  have ny : binary64.is_nan y = false := by
    rw [Bool.eq_false_iff]; intro h; rw [binary64_is_nan] at h; exact hey47 h.1
  have hval : double_value x ≤ double_value y := (binary64_le_iff x y nx ny).mp hle
  have hK := (double_value_le_iff_scaled x y).mp hval
  rw [binary64_scaled_units, binary64_scaled_units] at hK
  have hD : double_value rx.operator_double ≤ double_value ry.operator_double := by
    rw [double_value_le_iff_scaled, scaled_decoded x hx rx hex, scaled_decoded y hy ry hey]
    -- monotonicity of flushing and truncation on magnitudes
    have hA : double_units (double_exponent x) (double_fraction x) ≤
        double_units (double_exponent y) (double_fraction y) →
        (if double_exponent x = 0 then 0
          else double_units (double_exponent x) (double_fraction x / 2 ^ 13 * 2 ^ 13)) ≤
        (if double_exponent y = 0 then 0
          else double_units (double_exponent y) (double_fraction y / 2 ^ 13 * 2 ^ 13)) := by
      intro hU
      have hlex := double_units_le_lex _ _ _ _ hfy hU
      by_cases h0 : double_exponent x = 0
      · rw [if_pos h0]; exact Nat.zero_le _
      · rw [if_neg h0, if_neg (by omega)]
        exact double_units_mono _ _ _ _ (by omega) (by omega)
    have hA' : double_units (double_exponent y) (double_fraction y) ≤
        double_units (double_exponent x) (double_fraction x) →
        (if double_exponent y = 0 then 0
          else double_units (double_exponent y) (double_fraction y / 2 ^ 13 * 2 ^ 13)) ≤
        (if double_exponent x = 0 then 0
          else double_units (double_exponent x) (double_fraction x / 2 ^ 13 * 2 ^ 13)) := by
      intro hU
      have hlex := double_units_le_lex _ _ _ _ hfx hU
      by_cases h0 : double_exponent y = 0
      · rw [if_pos h0]; exact Nat.zero_le _
      · rw [if_neg h0, if_neg (by omega)]
        exact double_units_mono _ _ _ _ (by omega) (by omega)
    have hBx : double_units (double_exponent x) (double_fraction x) = 0 →
        (if double_exponent x = 0 then 0
          else double_units (double_exponent x) (double_fraction x / 2 ^ 13 * 2 ^ 13)) = 0 := by
      intro hU
      by_cases h0 : double_exponent x = 0
      · rw [if_pos h0]
      · have := double_units_pos (double_exponent x) (double_fraction x) h0
        omega
    have hBy : double_units (double_exponent y) (double_fraction y) = 0 →
        (if double_exponent y = 0 then 0
          else double_units (double_exponent y) (double_fraction y / 2 ^ 13 * 2 ^ 13)) = 0 := by
      intro hU
      by_cases h0 : double_exponent y = 0
      · rw [if_pos h0]
      · have := double_units_pos (double_exponent y) (double_fraction y) h0
        omega
    generalize double_units (double_exponent x) (double_fraction x) = ux at hK hA hA' hBx
    generalize double_units (double_exponent y) (double_fraction y) = uy at hK hA hA' hBy
    generalize (if double_exponent x = 0 then 0
      else double_units (double_exponent x) (double_fraction x / 2 ^ 13 * 2 ^ 13)) = tx
      at hA hA' hBx ⊢
    generalize (if double_exponent y = 0 then 0
      else double_units (double_exponent y) (double_fraction y / 2 ^ 13 * 2 ^ 13)) = ty
      at hA hA' hBy ⊢
    by_cases s1 : double_sign x = 1 <;> by_cases s2 : double_sign y = 1 <;>
      simp only [s1, s2, if_true, if_false] at hK ⊢
    · have := hA' (by omega); omega
    · omega
    · have h1 := hBx (by omega); have h2 := hBy (by omega); omega
    · have := hA (by omega); omega
  refine ⟨hval, hD, ?_⟩
  have wx := Real48_double_wf x rx hex
  have wy := Real48_double_wf y ry hey
  rw [Bool.eq_false_iff]
  intro hlt
  have := (binary64_lt_iff _ _ (operator_double_not_nan ry wy)
    (operator_double_not_nan rx wx)).mp hlt
  exact absurd hD (not_le.mpr this)

theorem double_encoder_monotone_witness :
    double_value (Real48.operator_double ⟨⟨129, 2 ^ 38, 1⟩⟩) ≤
      double_value (Real48.operator_double ⟨⟨129, 2 ^ 38, 0⟩⟩) ∧
    Real48.operator_lt ⟨⟨129, 2 ^ 38, 0⟩⟩ ⟨⟨129, 2 ^ 38, 1⟩⟩ = false :=
  (double_encoder_monotone 0xBFF8000000001FFF 0x3FF8000000001FFF (by decide) (by decide)
    ⟨⟨129, 2 ^ 38, 1⟩⟩ ⟨⟨129, 2 ^ 38, 0⟩⟩ (by rfl) (by rfl) (by decide)).2

/-! ## The fuzz harness check -/

theorem log2_fuel_eq_log2 (fuel n : Nat) (h : n ≤ fuel) :
    FpFormat.log2_fuel fuel n = Nat.log2 n := by
  induction fuel generalizing n with
  | zero =>
    have hn : n = 0 := by omega
    subst hn
    rw [Nat.log2]; rfl
  | succ k ih =>
    rw [FpFormat.log2_fuel, Nat.log2]
    by_cases h2 : 2 ≤ n
    · rw [if_pos h2, if_pos h2, ih (n / 2) (by omega)]
    · rw [if_neg h2, if_neg h2]

/-- The leading-bit position used by the rounding step is `Nat.log2`. -/
theorem ilog2_eq_log2 (n : Nat) : FpFormat.ilog2 n = Nat.log2 n :=
  log2_fuel_eq_log2 n n (le_refl n)

theorem ilog2_le (n : Nat) (h : n ≠ 0) : 2 ^ FpFormat.ilog2 n ≤ n := by
  rw [ilog2_eq_log2]; exact Nat.log2_self_le h

theorem lt_ilog2 (n : Nat) : n < 2 ^ (FpFormat.ilog2 n + 1) := by
  rw [ilog2_eq_log2]; exact Nat.lt_log2_self

/-- A rounded result is the sign bit plus a magnitude that is at most the
pattern of infinity. -/
theorem round_decompose (F : FpFormat) (s M : Nat) (E : Int) :
    ∃ m : Nat, m ≤ F.inf_bits ∧ F.round s M E = s * 2 ^ (F.ebits + F.mbits) + m := by
  unfold FpFormat.round
  by_cases hM : M = 0
  · rw [if_pos hM]
    exact ⟨0, Nat.zero_le _, rfl⟩
  · rw [if_neg hM]
    have hcap : ∀ a b : Nat, (if b ≥ a then a else b) ≤ a := by
      intro a b
      split <;> omega
    exact ⟨_, hcap _ _, rfl⟩

theorem binary32_sign_of (x : Nat) : binary32.sign_of x = float_sign x := rfl

theorem binary32_exponent_of (x : Nat) : binary32.exponent_of x = float_exponent x := rfl

theorem binary32_fraction_of (x : Nat) : binary32.fraction_of x = float_fraction x := rfl

theorem binary32_is_nan (x : Nat) :
    binary32.is_nan x = true ↔ (float_exponent x = 255 ∧ float_fraction x ≠ 0) := by
  unfold FpFormat.is_nan
  rw [binary32_exponent_of, binary32_fraction_of]
  simp [binary32]

theorem binary32_is_inf (x : Nat) :
    binary32.is_inf x = true ↔ (float_exponent x = 255 ∧ float_fraction x = 0) := by
  unfold FpFormat.is_inf
  rw [binary32_exponent_of, binary32_fraction_of]
  simp [binary32]

theorem binary64_is_inf (x : Nat) :
    binary64.is_inf x = true ↔ (double_exponent x = 2047 ∧ double_fraction x = 0) := by
  unfold FpFormat.is_inf
  rw [binary64_exponent_of, binary64_fraction_of]
  simp [binary64]

/-- Zero is at most every pattern that is not a NaN and has a clear sign bit. -/
theorem le_zero_of_sign_zero (F : FpFormat) (R : Nat) (hn : F.is_nan R = false)
    (hs : F.sign_of R = 0) : F.le 0 R = true := by
  have hz : F.is_nan 0 = false := by
    simp [FpFormat.is_nan, FpFormat.fraction_of]
  have hsig : F.sig 0 = 0 := by
    simp [FpFormat.sig, FpFormat.exponent_of, FpFormat.fraction_of]
  unfold FpFormat.le
  simp only [hz, hn, Bool.not_false, Bool.true_and, decide_eq_true_eq]
  unfold FpFormat.scaled
  rw [hsig, hs]
  simp

/-- A binary32 magnitude up to the pattern of infinity is not a NaN and has a
clear sign bit. -/
theorem binary32_magnitude (m : Nat) (h : m ≤ binary32.inf_bits) :
    binary32.is_nan m = false ∧ binary32.sign_of m = 0 := by
  have hi : binary32.inf_bits = 255 * 2 ^ 23 := by decide
  rw [hi] at h
  constructor
  · rw [Bool.eq_false_iff]
    intro hc
    rw [binary32_is_nan, float_exponent_eq, float_fraction_eq] at hc
    omega
  · rw [binary32_sign_of, float_sign_eq]; omega

/-- A binary64 magnitude up to the pattern of infinity is not a NaN and has a
clear sign bit. -/
theorem binary64_magnitude (m : Nat) (h : m ≤ binary64.inf_bits) :
    binary64.is_nan m = false ∧ binary64.sign_of m = 0 := by
  have hi : binary64.inf_bits = 2047 * 2 ^ 52 := by decide
  rw [hi] at h
  constructor
  · rw [Bool.eq_false_iff]
    intro hc
    rw [binary64_is_nan, double_exponent_eq, double_fraction_eq] at hc
    omega
  · rw [binary64_sign_of, double_sign_eq]; omega

/-- The fields of a finite binary32 pattern after `std::fabs`. -/
theorem binary32_fabs_fields (x : Nat) :
    float_sign (binary32.fabs x) = 0 ∧ float_exponent (binary32.fabs x) = float_exponent x ∧
    float_fraction (binary32.fabs x) = float_fraction x := by
  have : binary32.fabs x = x % 2 ^ 31 := rfl
  rw [this, float_sign_eq, float_exponent_eq, float_exponent_eq, float_fraction_eq,
    float_fraction_eq]
  omega

/-- The fields of a binary32 pattern after unary minus. -/
theorem binary32_neg_fields (x : Nat) (hx : x < 2 ^ 32) :
    float_sign (binary32.neg x) = 1 - float_sign x ∧
    float_exponent (binary32.neg x) = float_exponent x ∧
    float_fraction (binary32.neg x) = float_fraction x := by
  have hn : binary32.neg x = if float_sign x = 1 then x - 2 ^ 31 else x + 2 ^ 31 := rfl
  rw [hn]
  have hs := float_sign_eq x
  by_cases h : float_sign x = 1
  · rw [if_pos h, float_sign_eq, float_exponent_eq, float_exponent_eq, float_fraction_eq,
      float_fraction_eq]
    omega
  · rw [if_neg h, float_sign_eq, float_exponent_eq, float_exponent_eq, float_fraction_eq,
      float_fraction_eq]
    omega

/-- On a finite binary32 pattern `x`, `fabs(x - x)` is positive zero. -/
theorem binary32_fabs_sub_self (x : Nat) (hx : x < 2 ^ 32) (hfin : float_exponent x ≠ 255) :
    binary32.fabs (binary32.sub x x) = 0 := by
  obtain ⟨n1, n2, n3⟩ := binary32_neg_fields x hx
  have hsx : float_sign x < 2 := by rw [float_sign_eq]; omega
  have nan1 : binary32.is_nan x = false := by
    rw [Bool.eq_false_iff]; intro h; rw [binary32_is_nan] at h; exact hfin h.1
  have nan2 : binary32.is_nan (binary32.neg x) = false := by
    rw [Bool.eq_false_iff]; intro h; rw [binary32_is_nan, n2] at h; exact hfin h.1
  have inf1 : binary32.is_inf x = false := by
    rw [Bool.eq_false_iff]; intro h; rw [binary32_is_inf] at h; exact hfin h.1
  have inf2 : binary32.is_inf (binary32.neg x) = false := by
    rw [Bool.eq_false_iff]; intro h; rw [binary32_is_inf, n2] at h; exact hfin h.1
  have hsig : binary32.sig (binary32.neg x) = binary32.sig x := by
    unfold FpFormat.sig
    rw [binary32_exponent_of, binary32_exponent_of, binary32_fraction_of, binary32_fraction_of,
      n2, n3]
  have hexp : binary32.exp2 (binary32.neg x) = binary32.exp2 x := by
    unfold FpFormat.exp2
    rw [binary32_exponent_of, binary32_exponent_of, n2]
  unfold FpFormat.sub FpFormat.add
  simp only [nan1, nan2, inf1, inf2, hexp, min_self, Bool.false_eq_true, or_self, if_false]
  have hsum : binary32.scaled x (binary32.exp2 x) +
      binary32.scaled (binary32.neg x) (binary32.exp2 x) = 0 := by
    unfold FpFormat.scaled
    rw [hsig, hexp, binary32_sign_of, binary32_sign_of, n1]
    by_cases h : float_sign x = 1
    · rw [h]; simp
    · have h0 : float_sign x = 0 := by omega
      rw [h0]; simp
  rw [hsum, if_pos rfl, binary32_sign_of, binary32_sign_of, n1]
  have : ¬ (float_sign x = 1 ∧ 1 - float_sign x = 1) := by omega
  rw [if_neg this]
  rfl

/-- Decoding an encoded normal float32 to float32 returns the input pattern. -/
theorem operator_float_encoded (x : Nat) (hx : x < 2 ^ 32) (h1 : 1 ≤ float_exponent x)
    (h2 : float_exponent x ≤ 254) (r : Real48) (henc : Real48.Real48_float x = Except.ok r) :
    r.operator_float = Except.ok x := by
  rw [Real48_float_normal x hx h1 h2] at henc
  have hs : float_sign x < 2 := by rw [float_sign_eq]; omega
  have hf : float_fraction x < 2 ^ 23 := by rw [float_fraction_eq]; omega
  by_cases h : float_exponent x ≤ 253
  · rw [if_pos h] at henc
    injection henc with henc
    subst henc
    rw [operator_float_nonzero _ ⟨by simp only; omega, by simp only; omega, hs⟩
      (by simp only; omega)]
    simp only
    rw [if_pos (by omega)]
    congr 1
    have := float_fields x hx
    omega
  · rw [if_neg h] at henc
    cases henc

/-- The harness check holds for every normal float32 input that the encoder
accepts: the round trip is exact, so the left side is zero. -/
theorem test_float_normal (x : Nat) (hx : x < 2 ^ 32) (h1 : 1 ≤ float_exponent x)
    (h2 : float_exponent x ≤ 254) (r : Real48) (henc : Real48.Real48_float x = Except.ok r) :
    test_float x = true := by
  have hdec := operator_float_encoded x hx h1 h2 r henc
  obtain ⟨a1, a2, a3⟩ := binary32_fabs_fields x
  unfold test_float
  simp only [henc, hdec, ite_self, binary32_fabs_sub_self x hx (by omega)]
  have nan1 : binary32.is_nan (binary32.fabs x) = false := by
    rw [Bool.eq_false_iff]; intro h; rw [binary32_is_nan, a2] at h; omega
  have inf1 : binary32.is_inf (binary32.fabs x) = false := by
    rw [Bool.eq_false_iff]; intro h; rw [binary32_is_inf, a2] at h; omega
  have nan2 : binary32.is_nan float_epsilon = false := by decide
  have inf2 : binary32.is_inf float_epsilon = false := by decide
  have hs2 : binary32.sign_of float_epsilon = 0 := by decide
  have hmul : ∃ m : Nat, m ≤ binary32.inf_bits ∧
      binary32.mul (binary32.fabs x) float_epsilon = m := by
    unfold FpFormat.mul
    simp only [nan1, nan2, inf1, inf2, Bool.false_eq_true, or_self, if_false]
    rw [binary32_sign_of, a1, hs2]
    obtain ⟨m, hm, hr⟩ := round_decompose binary32 ((0 + 0) % 2)
      (binary32.sig (binary32.fabs x) * binary32.sig float_epsilon)
      (binary32.exp2 (binary32.fabs x) + binary32.exp2 float_epsilon)
    exact ⟨m, hm, by rw [hr]; simp⟩
  obtain ⟨m, hm, hr⟩ := hmul
  rw [hr]
  obtain ⟨g1, g2⟩ := binary32_magnitude m hm
  exact le_zero_of_sign_zero binary32 m g1 g2

/-- Rounding to binary64 is exact for a value `M * 2^E` in the normal range
whose significand fits in 53 bits: the result has biased exponent
`ilog2 M + E + 1023` and the 53-bit significand `sg` with
`sg * 2^(ilog2 M + E - 52) = M * 2^E`. -/
theorem binary64_round_exact (M : Nat) (E : Int) (hM : M ≠ 0)
    (hlo : -1022 ≤ (FpFormat.ilog2 M : Int) + E) (hhi : (FpFormat.ilog2 M : Int) + E ≤ 1023)
    (hdiv : 52 < FpFormat.ilog2 M → 2 ^ (FpFormat.ilog2 M - 52) ∣ M) :
    ∃ sg : Nat, 2 ^ 52 ≤ sg ∧ sg < 2 ^ 53 ∧
      (sg : ℚ) * (2 : ℚ) ^ ((FpFormat.ilog2 M : Int) + E - 52) = (M : ℚ) * (2 : ℚ) ^ E ∧
      ∀ s : Nat, binary64.round s M E =
        s * 2 ^ 63 + ((FpFormat.ilog2 M : Int) + E + 1023).toNat * 2 ^ 52 + (sg - 2 ^ 52) := by
  have hL1 := ilog2_le M hM
  have hL2 := lt_ilog2 M
  obtain ⟨L, hLdef⟩ : ∃ L, FpFormat.ilog2 M = L := ⟨_, rfl⟩
  rw [hLdef] at hlo hhi hdiv hL1 hL2 ⊢
  have hq : Max.max ((L : Int) + E - ((52 : Nat) : Int)) (-1074) = (L : Int) + E - 52 := by
    rw [max_eq_left (by omega)]; rfl
  have hqmin : binary64.qmin = -1074 := by decide
  have hinf : binary64.inf_bits = 2047 * 2 ^ 52 := by decide
  have hfinish : ∀ sg : Nat, 2 ^ 52 ≤ sg → sg < 2 ^ 53 → ∀ s : Nat,
      (s * 2 ^ (11 + 52) +
        if ((L : Int) + E - 52 - -1074).toNat * 2 ^ 52 + sg ≥ 2047 * 2 ^ 52 then 2047 * 2 ^ 52
        else ((L : Int) + E - 52 - -1074).toNat * 2 ^ 52 + sg) =
      s * 2 ^ 63 + ((L : Int) + E + 1023).toNat * 2 ^ 52 + (sg - 2 ^ 52) := by
    intro sg h1 h2 s
    have hc : ((L : Int) + E - 52 - -1074).toNat + 1 = ((L : Int) + E + 1023).toNat := by omega
    have hb : ((L : Int) + E - 52 - -1074).toNat ≤ 2045 := by omega
    rw [if_neg (by omega)]
    omega
  by_cases hcase : L ≤ 52
  · -- the significand is shifted left
    have hk : (E - ((L : Int) + E - 52)).toNat = 52 - L := by omega
    have hp : 2 ^ L * 2 ^ (52 - L) = 2 ^ 52 := by rw [← pow_add]; congr 1; omega
    have hp' : 2 ^ (L + 1) * 2 ^ (52 - L) = 2 ^ 53 := by rw [← pow_add]; congr 1; omega
    have hpos : 0 < 2 ^ (52 - L) := by positivity
    have b1 : 2 ^ 52 ≤ M * 2 ^ (52 - L) := by
      rw [← hp]; exact Nat.mul_le_mul_right _ hL1
    have b2 : M * 2 ^ (52 - L) < 2 ^ 53 := by
      rw [← hp']; exact Nat.mul_lt_mul_of_pos_right hL2 hpos
    refine ⟨M * 2 ^ (52 - L), b1, b2, ?_, ?_⟩
    · have hz : (2 : ℚ) ^ E = (2 : ℚ) ^ (((52 - L : Nat) : Int)) *
          (2 : ℚ) ^ ((L : Int) + E - 52) := by
        rw [← zpow_add₀ (by norm_num)]
        congr 1
        omega
      rw [hz, zpow_natCast]
      push_cast
      ring
    · intro s
      unfold FpFormat.round
      rw [if_neg hM]
      simp only [hqmin, hinf, hLdef]
      simp only [binary64, hq]
      rw [if_pos (show (L : Int) + E - 52 ≤ E by omega), hk]
      exact hfinish _ b1 b2 s
  · -- the significand is shifted right without remainder
    have hcase' : 52 < L := by omega
    obtain ⟨c, hc⟩ := hdiv hcase'
    have hk : ((L : Int) + E - 52 - E).toNat = L - 52 := by omega
    have hpos : 0 < 2 ^ (L - 52) := by positivity
    have hp : 2 ^ 52 * 2 ^ (L - 52) = 2 ^ L := by rw [← pow_add]; congr 1; omega
    have hp' : 2 ^ 53 * 2 ^ (L - 52) = 2 ^ (L + 1) := by rw [← pow_add]; congr 1; omega
    have hMc : M = c * 2 ^ (L - 52) := by rw [hc]; ring
    have b1 : 2 ^ 52 ≤ c := by
      rw [← hp, hMc] at hL1
      exact Nat.le_of_mul_le_mul_right hL1 hpos
    have b2 : c < 2 ^ 53 := by
      rw [← hp', hMc] at hL2
      exact Nat.lt_of_mul_lt_mul_right hL2
    have hdivc : M / 2 ^ (L - 52) = c := by
      rw [hMc]; exact Nat.mul_div_cancel _ hpos
    have hmodc : M % 2 ^ (L - 52) = 0 := by
      rw [hMc]; exact Nat.mul_mod_left _ _
    refine ⟨c, b1, b2, ?_, ?_⟩
    · have hz : (2 : ℚ) ^ ((L : Int) + E - 52) = (2 : ℚ) ^ (((L - 52 : Nat) : Int)) *
          (2 : ℚ) ^ E := by
        rw [← zpow_add₀ (by norm_num)]
        congr 1
        omega
      rw [hz, zpow_natCast, hMc]
      push_cast
      ring
    · intro s
      unfold FpFormat.round
      rw [if_neg hM]
      simp only [hqmin, hinf, hLdef]
      simp only [binary64, hq]
      rw [if_neg (show ¬ ((L : Int) + E - 52 ≤ E) by omega), hk, hdivc, hmodc]
      have hhalf : 0 < 2 ^ (L - 52 - 1) := by positivity
      have hcond : ¬ (0 > 2 ^ (L - 52 - 1) ∨ 0 = 2 ^ (L - 52 - 1) ∧ c % 2 = 1) := by omega
      rw [if_neg hcond]
      exact hfinish _ b1 b2 s

theorem ilog2_eq_of_bounds (n L : Nat) (h1 : 2 ^ L ≤ n) (h2 : n < 2 ^ (L + 1)) :
    FpFormat.ilog2 n = L := by
  have hn : n ≠ 0 := by
    have : 0 < 2 ^ L := by positivity
    omega
  rw [ilog2_eq_log2]
  have a := (Nat.le_log2 hn).mpr h1
  have b := (Nat.log2_lt hn).mpr h2
  omega

/-- Value, NaN status and absolute value of an exactly rounded binary64
result. -/
theorem binary64_round_exact_value (s M : Nat) (E : Int) (hs : s < 2) (hM : M ≠ 0)
    (hlo : -1022 ≤ (FpFormat.ilog2 M : Int) + E) (hhi : (FpFormat.ilog2 M : Int) + E ≤ 1023)
    (hdiv : 52 < FpFormat.ilog2 M → 2 ^ (FpFormat.ilog2 M - 52) ∣ M) :
    double_value (binary64.round s M E) = (if s = 1 then -1 else 1) * ((M : ℚ) * (2 : ℚ) ^ E) ∧
    binary64.is_nan (binary64.round s M E) = false ∧
    binary64.fabs (binary64.round s M E) = binary64.round 0 M E := by
  obtain ⟨sg, b1, b2, hval, hbits⟩ := binary64_round_exact M E hM hlo hhi hdiv
  have he1 : 1 ≤ ((FpFormat.ilog2 M : Int) + E + 1023).toNat := by omega
  have he2 : ((FpFormat.ilog2 M : Int) + E + 1023).toNat ≤ 2046 := by omega
  have hcast : ((((FpFormat.ilog2 M : Int) + E + 1023).toNat : Nat) : Int) - 1075 =
      (FpFormat.ilog2 M : Int) + E - 52 := by omega
  obtain ⟨g1, g2, g3⟩ := double_fields_of_sum s ((FpFormat.ilog2 M : Int) + E + 1023).toNat
    (sg - 2 ^ 52) hs (by omega) (by omega)
  refine ⟨?_, ?_, ?_⟩
  · rw [hbits s, double_value_of_fields _ _ _ hs (by omega) (by omega) (by omega), hcast, ← hval]
    have : ((sg - 2 ^ 52 : Nat) : ℚ) = (sg : ℚ) - 2 ^ 52 := by
      rw [Nat.cast_sub b1]; norm_num
    rw [this]
    ring
  · rw [Bool.eq_false_iff]
    intro hc
    rw [binary64_is_nan, hbits s, g2] at hc
    omega
  · rw [hbits s, hbits 0]
    have : ∀ z : Nat, binary64.fabs z = z % 2 ^ 63 := fun _ => rfl
    rw [this]
    omega

/-- The fields of a binary64 pattern after `std::fabs`. -/
theorem binary64_fabs_fields (x : Nat) :
    double_sign (binary64.fabs x) = 0 ∧
    double_exponent (binary64.fabs x) = double_exponent x ∧
    double_fraction (binary64.fabs x) = double_fraction x := by
  have : binary64.fabs x = x % 2 ^ 63 := rfl
  rw [this, double_sign_eq, double_exponent_eq, double_exponent_eq, double_fraction_eq,
    double_fraction_eq]
  omega

/-- The fields of a binary64 pattern after unary minus. -/
theorem binary64_neg_fields (x : Nat) (hx : x < 2 ^ 64) :
    double_sign (binary64.neg x) = 1 - double_sign x ∧
    double_exponent (binary64.neg x) = double_exponent x ∧
    double_fraction (binary64.neg x) = double_fraction x := by
  have hn : binary64.neg x = if double_sign x = 1 then x - 2 ^ 63 else x + 2 ^ 63 := rfl
  rw [hn]
  have hs := double_sign_eq x
  by_cases h : double_sign x = 1
  · rw [if_pos h, double_sign_eq, double_exponent_eq, double_exponent_eq, double_fraction_eq,
      double_fraction_eq]
    omega
  · rw [if_neg h, double_sign_eq, double_exponent_eq, double_exponent_eq, double_fraction_eq,
      double_fraction_eq]
    omega

/-- Sign, zero test and absolute value of a signed magnitude. -/
theorem signed_magnitude_facts (s d : Nat) :
    ((if s = 1 then (-1 : Int) else 1) * (d : Int) = 0 ↔ d = 0) ∧
    ((if s = 1 then (-1 : Int) else 1) * (d : Int) < 0 ↔ (s = 1 ∧ d ≠ 0)) ∧
    ((if s = 1 then (-1 : Int) else 1) * (d : Int)).natAbs = d := by
  by_cases h : s = 1
  · rw [if_pos h]
    refine ⟨by omega, ?_, by omega⟩
    constructor
    · intro h'; exact ⟨h, by omega⟩
    · intro h'; have := h'.2; omega
  · rw [if_neg h]
    refine ⟨by omega, ?_, by omega⟩
    constructor
    · intro h'; omega
    · intro h'; exact absurd h'.1 h

/-- The host difference of two normal binary64 patterns with the same sign and
exponent field, the second with the smaller fraction: zero, or the fraction
difference rounded at the common exponent. -/
theorem binary64_sub_same_exponent (a b : Nat) (hb : b < 2 ^ 64)
    (hs : double_sign b = double_sign a) (he : double_exponent b = double_exponent a)
    (he1 : 1 ≤ double_exponent a) (he2 : double_exponent a ≤ 2046)
    (hf : double_fraction b ≤ double_fraction a) :
    binary64.sub a b =
      if double_fraction a = double_fraction b then 0
      else binary64.round (double_sign a) (double_fraction a - double_fraction b)
        ((double_exponent a : Int) - 1075) := by
  obtain ⟨n1, n2, n3⟩ := binary64_neg_fields b hb
  have hsa : double_sign a < 2 := by rw [double_sign_eq]; omega
  have nan1 : binary64.is_nan a = false := by
    rw [Bool.eq_false_iff]; intro h; rw [binary64_is_nan] at h; omega
  have nan2 : binary64.is_nan (binary64.neg b) = false := by
    rw [Bool.eq_false_iff]; intro h; rw [binary64_is_nan, n2] at h; omega
  have inf1 : binary64.is_inf a = false := by
    rw [Bool.eq_false_iff]; intro h; rw [binary64_is_inf] at h; omega
  have inf2 : binary64.is_inf (binary64.neg b) = false := by
    rw [Bool.eq_false_iff]; intro h; rw [binary64_is_inf, n2] at h; omega
  have hexp1 : binary64.exp2 a = (double_exponent a : Int) - 1075 := by
    rw [binary64_exp2, if_neg (by omega)]
  have hexp2 : binary64.exp2 (binary64.neg b) = (double_exponent a : Int) - 1075 := by
    rw [binary64_exp2, n2, he, if_neg (by omega)]
  have hsig1 : binary64.sig a = 2 ^ 52 + double_fraction a := by
    rw [binary64_sig, if_neg (by omega)]
  have hsig2 : binary64.sig (binary64.neg b) = 2 ^ 52 + double_fraction b := by
    rw [binary64_sig, n2, n3, he, if_neg (by omega)]
  have hsc1 : binary64.scaled a ((double_exponent a : Int) - 1075) =
      (if double_sign a = 1 then -1 else 1) * ((2 ^ 52 + double_fraction a : Nat) : Int) := by
    unfold FpFormat.scaled
    rw [hsig1, hexp1, binary64_sign_of]
    simp
  have hsc2 : binary64.scaled (binary64.neg b) ((double_exponent a : Int) - 1075) =
      (if 1 - double_sign a = 1 then -1 else 1) * ((2 ^ 52 + double_fraction b : Nat) : Int) := by
    unfold FpFormat.scaled
    rw [hsig2, hexp2, binary64_sign_of, n1, hs]
    simp
  have hsum : binary64.scaled a ((double_exponent a : Int) - 1075) +
      binary64.scaled (binary64.neg b) ((double_exponent a : Int) - 1075) =
      (if double_sign a = 1 then -1 else 1) *
        ((double_fraction a - double_fraction b : Nat) : Int) := by
    rw [hsc1, hsc2]
    by_cases h1 : double_sign a = 1
    · rw [h1]
      simp only [if_true, Nat.sub_self, Nat.zero_ne_one, if_false]
      omega
    · have h0 : double_sign a = 0 := by omega
      rw [h0]
      simp only [Nat.zero_ne_one, if_false, Nat.sub_zero, if_true]
      omega
  obtain ⟨z1, z2, z3⟩ := signed_magnitude_facts (double_sign a)
    (double_fraction a - double_fraction b)
  unfold FpFormat.sub FpFormat.add
  simp only [nan1, nan2, inf1, inf2, hexp1, hexp2, min_self, Bool.false_eq_true, or_self,
    if_false, hsum, binary64_sign_of, n1, hs, z3]
  by_cases hfe : double_fraction a = double_fraction b
  · rw [if_pos hfe, if_pos (z1.mpr (by omega)),
      if_neg (show ¬ (double_sign a = 1 ∧ 1 - double_sign a = 1) by omega)]
  · rw [if_neg hfe, if_neg (show ¬ _ from fun h => hfe (by have := z1.mp h; omega))]
    congr 1
    by_cases h1 : double_sign a = 1
    · rw [if_pos (z2.mpr ⟨h1, by omega⟩), h1]
    · rw [if_neg (fun h => h1 (z2.mp h).1)]
      omega

/-- The host product of the absolute value of a normal binary64 pattern with
exponent field at least 53 and `epsilon = 2^-52` is exact. -/
theorem binary64_mul_epsilon (x : Nat) (h1 : 53 ≤ double_exponent x)
    (h2 : double_exponent x ≤ 2046) :
    double_value (binary64.mul (binary64.fabs x) double_epsilon) =
      ((2 ^ 52 + double_fraction x : Nat) : ℚ) * (2 : ℚ) ^ ((double_exponent x : Int) - 1127) ∧
    binary64.is_nan (binary64.mul (binary64.fabs x) double_epsilon) = false := by
  obtain ⟨a1, a2, a3⟩ := binary64_fabs_fields x
  have hf : double_fraction x < 2 ^ 52 := by rw [double_fraction_eq]; omega
  have nan1 : binary64.is_nan (binary64.fabs x) = false := by
    rw [Bool.eq_false_iff]; intro h; rw [binary64_is_nan, a2] at h; omega
  have inf1 : binary64.is_inf (binary64.fabs x) = false := by
    rw [Bool.eq_false_iff]; intro h; rw [binary64_is_inf, a2] at h; omega
  have nan2 : binary64.is_nan double_epsilon = false := by decide
  have inf2 : binary64.is_inf double_epsilon = false := by decide
  have hs2 : binary64.sign_of double_epsilon = 0 := by decide
  have hsig2 : binary64.sig double_epsilon = 2 ^ 52 := by decide
  have hexp2 : binary64.exp2 double_epsilon = -104 := by decide
  have hsig1 : binary64.sig (binary64.fabs x) = 2 ^ 52 + double_fraction x := by
    rw [binary64_sig, a2, a3, if_neg (by omega)]
  have hexp1 : binary64.exp2 (binary64.fabs x) = (double_exponent x : Int) - 1075 := by
    rw [binary64_exp2, a2, if_neg (by omega)]
  have hmul : binary64.mul (binary64.fabs x) double_epsilon =
      binary64.round 0 ((2 ^ 52 + double_fraction x) * 2 ^ 52)
        ((double_exponent x : Int) - 1075 + -104) := by
    unfold FpFormat.mul
    simp only [nan1, nan2, inf1, inf2, Bool.false_eq_true, or_self, if_false]
    rw [binary64_sign_of, a1, hs2, hsig1, hsig2, hexp1, hexp2]
  have hlog : FpFormat.ilog2 ((2 ^ 52 + double_fraction x) * 2 ^ 52) = 104 :=
    ilog2_eq_of_bounds _ 104 (by omega) (by omega)
  have hM : (2 ^ 52 + double_fraction x) * 2 ^ 52 ≠ 0 := by omega
  obtain ⟨v, n, -⟩ := binary64_round_exact_value 0 ((2 ^ 52 + double_fraction x) * 2 ^ 52)
    ((double_exponent x : Int) - 1075 + -104) (by decide) hM (by rw [hlog]; omega)
    (by rw [hlog]; omega) (by rw [hlog]; intro _; exact Dvd.intro_left _ rfl)
  rw [hmul]
  refine ⟨?_, n⟩
  rw [v, if_neg (by decide), one_mul]
  have hz : (2 : ℚ) ^ ((double_exponent x : Int) - 1127) =
      (2 : ℚ) ^ (((52 : Nat) : Int)) * (2 : ℚ) ^ ((double_exponent x : Int) - 1075 + -104) := by
    rw [← zpow_add₀ (by norm_num)]
    congr 1
    omega
  rw [hz, zpow_natCast]
  push_cast
  ring

/-- For a normal float64 input that the encoder accepts, the harness check
holds exactly when the 13 discarded fraction bits are 0 or 1. -/
theorem test_double_normal (x : Nat) (hx : x < 2 ^ 64) (h1 : 1 ≤ double_exponent x)
    (h2 : double_exponent x ≤ 2046) (r : Real48)
    (henc : Real48.Real48_double x = Except.ok r) :
    test_double x = true ↔ double_fraction x % 2 ^ 13 ≤ 1 := by
  have hs : double_sign x < 2 := by rw [double_sign_eq]; omega
  have hf : double_fraction x < 2 ^ 52 := by rw [double_fraction_eq]; omega
  have henc' := henc
  rw [Real48_double_normal x hx h1 h2] at henc'
  by_cases h : 895 ≤ double_exponent x ∧ double_exponent x ≤ 1149
  · rw [if_pos h] at henc'
    injection henc' with henc'
    have hform := operator_double_nonzero
      (⟨⟨double_exponent x - 894, double_fraction x / 2 ^ 13, double_sign x⟩⟩ : Real48)
      ⟨by simp only; omega, by simp only; omega, hs⟩ (by simp only; omega)
    simp only at hform
    have he : double_exponent x - 894 + 894 = double_exponent x := by omega
    rw [he, henc'] at hform
    obtain ⟨g1, g2, g3⟩ := double_fields_of_sum (double_sign x) (double_exponent x)
      (double_fraction x / 2 ^ 13 * 2 ^ 13) hs (by omega) (by omega)
    rw [← hform] at g1 g2 g3
    have hb64 : r.operator_double < 2 ^ 64 := by rw [hform]; omega
    -- the difference
    have hsub := binary64_sub_same_exponent x r.operator_double hb64 g1 g2 (by omega) (by omega)
      (by rw [g3]; omega)
    rw [g3] at hsub
    -- the larger magnitude is that of the input
    obtain ⟨a1, a2, a3⟩ := binary64_fabs_fields x
    obtain ⟨b1, b2, b3⟩ := binary64_fabs_fields r.operator_double
    have nanA : binary64.is_nan (binary64.fabs x) = false := by
      rw [Bool.eq_false_iff]; intro hc; rw [binary64_is_nan, a2] at hc; omega
    have nanB : binary64.is_nan (binary64.fabs r.operator_double) = false := by
      rw [Bool.eq_false_iff]; intro hc; rw [binary64_is_nan, b2, g2] at hc; omega
    have hlt : binary64.lt (binary64.fabs x) (binary64.fabs r.operator_double) = false := by
      rw [Bool.eq_false_iff]
      intro hc
      rw [binary64_lt_iff _ _ nanA nanB] at hc
      have hle : double_value (binary64.fabs r.operator_double) ≤ double_value (binary64.fabs x) := by
        rw [double_value_le_iff_scaled, binary64_scaled_units, binary64_scaled_units, a1, a2, a3,
          b1, b2, b3, g2, g3]
        simp only [Nat.zero_ne_one, if_false, one_mul, Nat.cast_le]
        exact double_units_mono _ _ _ _ (by omega) (Or.inr ⟨rfl, by omega⟩)
      exact absurd hc (not_lt.mpr hle)
    obtain ⟨vR, nR⟩ := binary64_mul_epsilon x (by omega) h2
    have hpow : (2 : ℚ) ^ ((double_exponent x : Int) - 1075) =
        2 ^ 52 * (2 : ℚ) ^ ((double_exponent x : Int) - 1127) := by
      have : (double_exponent x : Int) - 1075 =
          ((52 : Nat) : Int) + ((double_exponent x : Int) - 1127) := by omega
      rw [this, zpow_add₀ (by norm_num), zpow_natCast]
    have hP : (0 : ℚ) < (2 : ℚ) ^ ((double_exponent x : Int) - 1127) := by positivity
    unfold test_double
    simp only [henc, hlt, hsub, Bool.false_eq_true, if_false]
    by_cases hT : double_fraction x = double_fraction x / 2 ^ 13 * 2 ^ 13
    · rw [if_pos hT]
      have hz : binary64.fabs 0 = 0 := by decide
      have nz : binary64.is_nan 0 = false := by decide
      have vz : double_value 0 = 0 := by
        have e0 : double_exponent 0 = 0 := by decide
        have f0 : double_fraction 0 = 0 := by decide
        have s0 : double_sign 0 = 0 := by decide
        unfold double_value
        simp [e0, f0, s0]
      rw [hz, binary64_le_iff _ _ nz nR, vz, vR]
      constructor
      · intro _; omega
      · intro _; positivity
    · rw [if_neg hT]
      have hTpos : double_fraction x - double_fraction x / 2 ^ 13 * 2 ^ 13 ≠ 0 := by omega
      have hlog : FpFormat.ilog2 (double_fraction x - double_fraction x / 2 ^ 13 * 2 ^ 13) ≤ 12 := by
        rw [ilog2_eq_log2]
        have := (Nat.log2_lt hTpos).mpr
          (show double_fraction x - double_fraction x / 2 ^ 13 * 2 ^ 13 < 2 ^ 13 by omega)
        omega
      obtain ⟨-, -, hfabs⟩ := binary64_round_exact_value (double_sign x)
        (double_fraction x - double_fraction x / 2 ^ 13 * 2 ^ 13)
        ((double_exponent x : Int) - 1075) hs hTpos (by omega) (by omega)
        (by intro hc; omega)
      obtain ⟨vL, nL, -⟩ := binary64_round_exact_value 0
        (double_fraction x - double_fraction x / 2 ^ 13 * 2 ^ 13)
        ((double_exponent x : Int) - 1075) (by decide) hTpos (by omega) (by omega)
        (by intro hc; omega)
      rw [hfabs, binary64_le_iff _ _ nL nR, vL, vR, if_neg (by decide), one_mul, hpow]
      have key : ((double_fraction x - double_fraction x / 2 ^ 13 * 2 ^ 13 : Nat) : ℚ) *
          (2 ^ 52 * (2 : ℚ) ^ ((double_exponent x : Int) - 1127)) ≤
          ((2 ^ 52 + double_fraction x : Nat) : ℚ) * (2 : ℚ) ^ ((double_exponent x : Int) - 1127) ↔
          (double_fraction x - double_fraction x / 2 ^ 13 * 2 ^ 13) * 2 ^ 52 ≤
            2 ^ 52 + double_fraction x := by
        rw [← mul_assoc, mul_le_mul_right hP]
        constructor
        · intro hq; exact_mod_cast hq
        · intro hn; exact_mod_cast hn
      rw [key]
      omega
  · rw [if_neg h] at henc'
    cases henc'

/-- The harness check fails for every non-zero subnormal float64 input: the
round trip flushes it to zero, so the left side is `|x|`, while the right side
`|x| * epsilon` rounds to zero or to the smallest subnormal. -/
theorem test_double_subnormal (x : Nat) (hx : x < 2 ^ 64) (h0 : double_exponent x = 0)
    (hk : double_fraction x ≠ 0) : test_double x = false := by
  have hs : double_sign x < 2 := by rw [double_sign_eq]; omega
  have hf : double_fraction x < 2 ^ 52 := by rw [double_fraction_eq]; omega
  have hxf := double_fields x hx
  rw [h0] at hxf
  have hcls : classify_ieee_double x = FpClass.FP_SUBNORMAL := by
    unfold classify_ieee_double
    rw [if_neg (by omega), if_pos h0, if_neg hk]
  have henc := zero_canon_double x (Or.inr hcls)
  have hdec : Real48.operator_double ⟨⟨0, 0, 0⟩⟩ = 0 := rfl
  have hqmin : binary64.qmin = -1074 := by decide
  have hinf : binary64.inf_bits = 2047 * 2 ^ 52 := by decide
  have nanx : binary64.is_nan x = false := by
    rw [Bool.eq_false_iff]; intro h; rw [binary64_is_nan] at h; omega
  have infx : binary64.is_inf x = false := by
    rw [Bool.eq_false_iff]; intro h; rw [binary64_is_inf] at h; omega
  have hexpx : binary64.exp2 x = -1074 := by rw [binary64_exp2, if_pos h0]; rfl
  have hsigx : binary64.sig x = double_fraction x := by rw [binary64_sig, if_pos h0]
  -- x - 0 is x
  have hsub : binary64.sub x 0 = x := by
    have hneg : binary64.neg 0 = 2 ^ 63 := by decide
    have nan2 : binary64.is_nan (2 ^ 63) = false := by decide
    have inf2 : binary64.is_inf (2 ^ 63) = false := by decide
    have hexp2 : binary64.exp2 (2 ^ 63) = -1074 := by decide
    have hsc2 : binary64.scaled (2 ^ 63) (-1074) = 0 := by decide
    have hsc1 : binary64.scaled x (-1074) =
        (if double_sign x = 1 then -1 else 1) * ((double_fraction x : Nat) : Int) := by
      unfold FpFormat.scaled
      rw [hsigx, hexpx, binary64_sign_of]
      simp
    obtain ⟨z1, z2, z3⟩ := signed_magnitude_facts (double_sign x) (double_fraction x)
    have hL : (FpFormat.ilog2 (double_fraction x) : Int) ≤ 51 := by
      rw [ilog2_eq_log2]
      have := (Nat.log2_lt hk).mpr hf
      omega
    unfold FpFormat.sub FpFormat.add
    simp only [hneg, nanx, nan2, infx, inf2, hexpx, hexp2, min_self, hsc1, hsc2, add_zero,
      Bool.false_eq_true, or_self, if_false, z3]
    rw [if_neg (fun h => hk (z1.mp h))]
    have hsgn : (if (if double_sign x = 1 then (-1 : Int) else 1) * ((double_fraction x : Nat) : Int) < 0
        then 1 else 0) = double_sign x := by
      by_cases h1 : double_sign x = 1
      · rw [if_pos (z2.mpr ⟨h1, hk⟩), h1]
      · rw [if_neg (fun h => h1 (z2.mp h).1)]; omega
    rw [hsgn]
    unfold FpFormat.round
    rw [if_neg hk]
    simp only [hqmin, hinf]
    simp only [binary64]
    have hq : Max.max ((FpFormat.ilog2 (double_fraction x) : Int) + -1074 - ((52 : Nat) : Int))
        (-1074) = -1074 := max_eq_right (by omega)
    rw [hq]
    simp only [le_refl, if_true, sub_self, Int.toNat_zero, pow_zero, mul_one, zero_mul, zero_add]
    rw [if_neg (by omega)]
    omega
  -- the right side of the check
  obtain ⟨a1, a2, a3⟩ := binary64_fabs_fields x
  have nanA : binary64.is_nan (binary64.fabs x) = false := by
    rw [Bool.eq_false_iff]; intro h; rw [binary64_is_nan, a2] at h; omega
  have infA : binary64.is_inf (binary64.fabs x) = false := by
    rw [Bool.eq_false_iff]; intro h; rw [binary64_is_inf, a2] at h; omega
  have hz : binary64.fabs 0 = 0 := by decide
  have nz : binary64.is_nan 0 = false := by decide
  have hlt : binary64.lt (binary64.fabs x) 0 = false := by
    rw [Bool.eq_false_iff]
    intro hc
    rw [binary64_lt_iff _ _ nanA nz] at hc
    have := (binary64_le_iff _ _ nz nanA).mp
      (le_zero_of_sign_zero binary64 _ nanA (by rw [binary64_sign_of, a1]))
    exact absurd hc (not_lt.mpr this)
  have hmul : ∃ R : Nat, R ≤ 1 ∧ (R = 1 → 2 ^ 51 < double_fraction x) ∧
      binary64.mul (binary64.fabs x) double_epsilon = R := by
    have nan2 : binary64.is_nan double_epsilon = false := by decide
    have inf2 : binary64.is_inf double_epsilon = false := by decide
    have hs2 : binary64.sign_of double_epsilon = 0 := by decide
    have hsig2 : binary64.sig double_epsilon = 2 ^ 52 := by decide
    have hexp2 : binary64.exp2 double_epsilon = -104 := by decide
    have hsig1 : binary64.sig (binary64.fabs x) = double_fraction x := by
      rw [binary64_sig, a2, a3, if_pos h0]
    have hexp1 : binary64.exp2 (binary64.fabs x) = -1074 := by
      rw [binary64_exp2, a2, if_pos h0]; rfl
    have hM : double_fraction x * 2 ^ 52 ≠ 0 := by omega
    have hL : (FpFormat.ilog2 (double_fraction x * 2 ^ 52) : Int) ≤ 103 := by
      rw [ilog2_eq_log2]
      have := (Nat.log2_lt hM).mpr (show double_fraction x * 2 ^ 52 < 2 ^ 104 by omega)
      omega
    unfold FpFormat.mul
    simp only [nanA, nan2, infA, inf2, Bool.false_eq_true, or_self, if_false]
    rw [binary64_sign_of, a1, hs2, hsig1, hsig2, hexp1, hexp2]
    unfold FpFormat.round
    rw [if_neg hM]
    simp only [hqmin, hinf]
    simp only [binary64]
    have hq : Max.max ((FpFormat.ilog2 (double_fraction x * 2 ^ 52) : Int) + (-1074 + -104)
        - ((52 : Nat) : Int)) (-1074) = -1074 := max_eq_right (by omega)
    rw [hq]
    have hE : ¬ ((-1074 : Int) ≤ -1074 + -104) := by omega
    have hkk : ((-1074 : Int) - (-1074 + -104)).toNat = 104 := by decide
    rw [if_neg hE, hkk]
    simp only [sub_self, Int.toNat_zero, zero_mul, zero_add, Nat.zero_mod]
    have hdiv : double_fraction x * 2 ^ 52 / 2 ^ 104 = 0 := by omega
    have hmod : double_fraction x * 2 ^ 52 % 2 ^ 104 = double_fraction x * 2 ^ 52 := by omega
    rw [hdiv, hmod]
    by_cases hup : double_fraction x * 2 ^ 52 > 2 ^ (104 - 1) ∨
        double_fraction x * 2 ^ 52 = 2 ^ (104 - 1) ∧ 0 % 2 = 1
    · rw [if_pos hup, if_neg (by omega)]
      exact ⟨1, le_refl _, fun _ => by omega, by omega⟩
    · rw [if_neg hup, if_neg (by omega)]
      exact ⟨0, by omega, fun h => by omega, by omega⟩
  obtain ⟨R, hR1, hR2, hmulR⟩ := hmul
  unfold test_double
  simp only [henc, hdec, hsub, hz, hlt, hmulR, Bool.false_eq_true, if_false]
  -- compare |x| with R
  have nanR : binary64.is_nan R = false := by
    rw [Bool.eq_false_iff]; intro h; rw [binary64_is_nan, double_exponent_eq] at h; omega
  rw [Bool.eq_false_iff]
  intro hc
  rw [binary64_le_iff _ _ nanA nanR, double_value_le_iff_scaled, binary64_scaled_units,
    binary64_scaled_units, a1, a2, a3, h0] at hc
  have eR : double_exponent R = 0 := by rw [double_exponent_eq]; omega
  have fR : double_fraction R = R := by rw [double_fraction_eq]; omega
  have sR : double_sign R = 0 := by rw [double_sign_eq]; omega
  rw [eR, fR, sR] at hc
  simp only [Nat.zero_ne_one, if_false, one_mul, Nat.cast_le, double_units, if_true] at hc
  rcases Nat.eq_or_lt_of_le hR1 with h | h
  · have := hR2 h; omega
  · omega

theorem binary32_sig (x : Nat) :
    binary32.sig x = if float_exponent x = 0 then float_fraction x
      else 2 ^ 23 + float_fraction x := rfl

theorem binary32_exp2 (x : Nat) :
    binary32.exp2 x = (if float_exponent x = 0 then 1 else (float_exponent x : Int)) - 150 := by
  unfold FpFormat.exp2 FpFormat.bias
  rw [binary32_exponent_of]
  simp only [binary32]
  omega

/-- The harness check fails for every non-zero subnormal float32 input. -/
theorem test_float_subnormal (x : Nat) (hx : x < 2 ^ 32) (h0 : float_exponent x = 0)
    (hk : float_fraction x ≠ 0) : test_float x = false := by
  have hs : float_sign x < 2 := by rw [float_sign_eq]; omega
  have hf : float_fraction x < 2 ^ 23 := by rw [float_fraction_eq]; omega
  have hxf := float_fields x hx
  rw [h0] at hxf
  have hcls : classify_ieee_float x = FpClass.FP_SUBNORMAL := by
    unfold classify_ieee_float
    rw [if_neg (by omega), if_pos h0, if_neg hk]
  have henc := zero_canon_float x (Or.inr hcls)
  have hdec : Real48.operator_float ⟨⟨0, 0, 0⟩⟩ = Except.ok 0 := rfl
  have hqmin : binary32.qmin = -149 := by decide
  have hinf : binary32.inf_bits = 255 * 2 ^ 23 := by decide
  have nanx : binary32.is_nan x = false := by
    rw [Bool.eq_false_iff]; intro h; rw [binary32_is_nan] at h; omega
  have infx : binary32.is_inf x = false := by
    rw [Bool.eq_false_iff]; intro h; rw [binary32_is_inf] at h; omega
  have hexpx : binary32.exp2 x = -149 := by rw [binary32_exp2, if_pos h0]; rfl
  have hsigx : binary32.sig x = float_fraction x := by rw [binary32_sig, if_pos h0]
  -- x - 0 is x
  have hsub : binary32.sub x 0 = x := by
    have hneg : binary32.neg 0 = 2 ^ 31 := by decide
    have nan2 : binary32.is_nan (2 ^ 31) = false := by decide
    have inf2 : binary32.is_inf (2 ^ 31) = false := by decide
    have hexp2 : binary32.exp2 (2 ^ 31) = -149 := by decide
    have hsc2 : binary32.scaled (2 ^ 31) (-149) = 0 := by decide
    have hsc1 : binary32.scaled x (-149) =
        (if float_sign x = 1 then -1 else 1) * ((float_fraction x : Nat) : Int) := by
      unfold FpFormat.scaled
      rw [hsigx, hexpx, binary32_sign_of]
      simp
    obtain ⟨z1, z2, z3⟩ := signed_magnitude_facts (float_sign x) (float_fraction x)
    have hL : (FpFormat.ilog2 (float_fraction x) : Int) ≤ 22 := by
      rw [ilog2_eq_log2]
      have := (Nat.log2_lt hk).mpr hf
      omega
    unfold FpFormat.sub FpFormat.add
    simp only [hneg, nanx, nan2, infx, inf2, hexpx, hexp2, min_self, hsc1, hsc2, add_zero,
      Bool.false_eq_true, or_self, if_false, z3]
    rw [if_neg (fun h => hk (z1.mp h))]
    have hsgn : (if (if float_sign x = 1 then (-1 : Int) else 1) * ((float_fraction x : Nat) : Int) < 0
        then 1 else 0) = float_sign x := by
      by_cases h1 : float_sign x = 1
      · rw [if_pos (z2.mpr ⟨h1, hk⟩), h1]
      · rw [if_neg (fun h => h1 (z2.mp h).1)]; omega
    rw [hsgn]
    unfold FpFormat.round
    rw [if_neg hk]
    simp only [hqmin, hinf]
    simp only [binary32]
    have hq : Max.max ((FpFormat.ilog2 (float_fraction x) : Int) + -149 - ((23 : Nat) : Int))
        (-149) = -149 := max_eq_right (by omega)
    rw [hq]
    simp only [le_refl, if_true, sub_self, Int.toNat_zero, pow_zero, mul_one, zero_mul, zero_add]
    rw [if_neg (by omega)]
    omega
  -- the right side of the check
  obtain ⟨a1, a2, a3⟩ := binary32_fabs_fields x
  have nanA : binary32.is_nan (binary32.fabs x) = false := by
    rw [Bool.eq_false_iff]; intro h; rw [binary32_is_nan, a2] at h; omega
  have infA : binary32.is_inf (binary32.fabs x) = false := by
    rw [Bool.eq_false_iff]; intro h; rw [binary32_is_inf, a2] at h; omega
  have hsig1 : binary32.sig (binary32.fabs x) = float_fraction x := by
    rw [binary32_sig, a2, a3, if_pos h0]
  have hexp1 : binary32.exp2 (binary32.fabs x) = -149 := by
    rw [binary32_exp2, a2, if_pos h0]; rfl
  have hscA : binary32.scaled (binary32.fabs x) (-149) = ((float_fraction x : Nat) : Int) := by
    unfold FpFormat.scaled
    rw [hsig1, hexp1, binary32_sign_of, a1]
    simp
  have hz : binary32.fabs 0 = 0 := by decide
  have nz : binary32.is_nan 0 = false := by decide
  have hlt : binary32.lt (binary32.fabs x) 0 = false := by
    have hexp0 : binary32.exp2 0 = -149 := by decide
    have hsc0 : binary32.scaled 0 (-149) = 0 := by decide
    unfold FpFormat.lt
    simp only [hexp1, hexp0, min_self, hscA, hsc0, nanA, nz]
    simp
  have hmul : ∃ R : Nat, R ≤ 1 ∧ (R = 1 → 2 ^ 22 < float_fraction x) ∧
      binary32.mul (binary32.fabs x) float_epsilon = R := by
    have nan2 : binary32.is_nan float_epsilon = false := by decide
    have inf2 : binary32.is_inf float_epsilon = false := by decide
    have hs2 : binary32.sign_of float_epsilon = 0 := by decide
    have hsig2 : binary32.sig float_epsilon = 2 ^ 23 := by decide
    have hexp2 : binary32.exp2 float_epsilon = -46 := by decide
    have hM : float_fraction x * 2 ^ 23 ≠ 0 := by omega
    have hL : (FpFormat.ilog2 (float_fraction x * 2 ^ 23) : Int) ≤ 45 := by
      rw [ilog2_eq_log2]
      have := (Nat.log2_lt hM).mpr (show float_fraction x * 2 ^ 23 < 2 ^ 46 by omega)
      omega
    unfold FpFormat.mul
    simp only [nanA, nan2, infA, inf2, Bool.false_eq_true, or_self, if_false]
    rw [binary32_sign_of, a1, hs2, hsig1, hsig2, hexp1, hexp2]
    unfold FpFormat.round
    rw [if_neg hM]
    simp only [hqmin, hinf]
    simp only [binary32]
    have hq : Max.max ((FpFormat.ilog2 (float_fraction x * 2 ^ 23) : Int) + (-149 + -46)
        - ((23 : Nat) : Int)) (-149) = -149 := max_eq_right (by omega)
    rw [hq]
    have hE : ¬ ((-149 : Int) ≤ -149 + -46) := by omega
    have hkk : ((-149 : Int) - (-149 + -46)).toNat = 46 := by decide
    rw [if_neg hE, hkk]
    simp only [sub_self, Int.toNat_zero, zero_mul, zero_add, Nat.zero_mod]
    have hdiv : float_fraction x * 2 ^ 23 / 2 ^ 46 = 0 := by omega
    have hmod : float_fraction x * 2 ^ 23 % 2 ^ 46 = float_fraction x * 2 ^ 23 := by omega
    rw [hdiv, hmod]
    by_cases hup : float_fraction x * 2 ^ 23 > 2 ^ (46 - 1) ∨
        float_fraction x * 2 ^ 23 = 2 ^ (46 - 1) ∧ 0 % 2 = 1
    · rw [if_pos hup, if_neg (by omega)]
      exact ⟨1, le_refl _, fun _ => by omega, by omega⟩
    · rw [if_neg hup, if_neg (by omega)]
      exact ⟨0, by omega, fun h => by omega, by omega⟩
  obtain ⟨R, hR1, hR2, hmulR⟩ := hmul
  unfold test_float
  simp only [henc, hdec, hsub, hz, hlt, hmulR, Bool.false_eq_true, if_false]
  -- compare |x| with R
  have eR : float_exponent R = 0 := by rw [float_exponent_eq]; omega
  have fR : float_fraction R = R := by rw [float_fraction_eq]; omega
  have sR : float_sign R = 0 := by rw [float_sign_eq]; omega
  have hexpR : binary32.exp2 R = -149 := by rw [binary32_exp2, if_pos eR]; rfl
  have hscR : binary32.scaled R (-149) = ((R : Nat) : Int) := by
    unfold FpFormat.scaled
    rw [binary32_sig, if_pos eR, fR, hexpR, binary32_sign_of, sR]
    simp
  unfold FpFormat.le
  simp only [hexp1, hexpR, min_self, hscA, hscR, nanA]
  rw [Bool.eq_false_iff]
  intro hc
  simp only [Bool.not_false, Bool.true_and, Bool.and_eq_true, decide_eq_true_eq,
    Nat.cast_le] at hc
  rcases Nat.eq_or_lt_of_le hR1 with h | h
  · have := hR2 h; omega
  · omega

/-- The harness check holds for the float32 zeros. -/
theorem test_float_zero (x : Nat) (hx : x < 2 ^ 32) (he : float_exponent x = 0)
    (hf : float_fraction x = 0) : test_float x = true := by
  have h := float_fields x hx
  have hs : float_sign x < 2 := by rw [float_sign_eq]; omega
  rw [he, hf] at h
  have h2 : x = 0 ∨ x = 2 ^ 31 := by omega
  rcases h2 with rfl | rfl <;> decide

/-- The harness check holds for the float64 zeros. -/
theorem test_double_zero (x : Nat) (hx : x < 2 ^ 64) (he : double_exponent x = 0)
    (hf : double_fraction x = 0) : test_double x = true := by
  have h := double_fields x hx
  have hs : double_sign x < 2 := by rw [double_sign_eq]; omega
  rw [he, hf] at h
  have h2 : x = 0 ∨ x = 2 ^ 63 := by omega
  rcases h2 with rfl | rfl <;> decide

set_option maxRecDepth 8192 in
/-- The harness on the float64 input `1 + 2^-51`, evaluated. -/
theorem test_double_example : test_double 0x3FF0000000000002 = false := by
  decide

set_option maxRecDepth 8192 in
/-- The harness on the smallest positive float32 subnormal, evaluated. -/
theorem test_float_example : test_float 0x00000001 = false := by
  decide

/-- C13 (counterexample): the float64 input `0x3FF0000000000002` (1 + 2^-51) is
encoded and decoded without failure, to 1.0, and the harness check is false;
likewise the float32 subnormal `0x00000001` round-trips to zero and fails the
check. -/
theorem harness_check_counterexample :
    Real48.Real48_double 0x3FF0000000000002 = Except.ok ⟨⟨129, 0, 0⟩⟩ ∧
    Real48.operator_double ⟨⟨129, 0, 0⟩⟩ = 0x3FF0000000000000 ∧
    test_double 0x3FF0000000000002 = false ∧
    Real48.Real48_float 0x00000001 = Except.ok ⟨⟨0, 0, 0⟩⟩ ∧
    Real48.operator_float ⟨⟨0, 0, 0⟩⟩ = Except.ok 0 ∧
    test_float 0x00000001 = false := by
  exact ⟨by rfl, by rfl, test_double_example, by rfl, by rfl, test_float_example⟩

/-- C13 (amended): for every float32 and float64 input on which encoding does
not fail, decoding back does not fail either, and the round-tripped value
satisfies the harness check `|x - y| <= max(|x|, |y|) * epsilon_T` exactly when
the input is not a subnormal and, for float64, the 13 low fraction bits that the
encoder discards have value 0 or 1.  So zeros and all accepted normal float32
inputs pass; subnormal inputs and float64 inputs with discarded bits of value 2
or more fail. -/
theorem harness_check_characterization (x32 x64 : Nat) (h32 : x32 < 2 ^ 32)
    (h64 : x64 < 2 ^ 64) (r32 r64 : Real48)
    (e32 : Real48.Real48_float x32 = Except.ok r32)
    (e64 : Real48.Real48_double x64 = Except.ok r64) :
    (∃ y32 : Nat, r32.operator_float = Except.ok y32) ∧
    (test_float x32 = true ↔ classify_ieee_float x32 ≠ FpClass.FP_SUBNORMAL) ∧
    (test_double x64 = true ↔
      (classify_ieee_double x64 ≠ FpClass.FP_SUBNORMAL ∧ double_fraction x64 % 2 ^ 13 ≤ 1)) := by
  have hlt32 : float_exponent x32 < 2 ^ 8 := by rw [float_exponent_eq]; omega
  have hlt64 : double_exponent x64 < 2 ^ 11 := by rw [double_exponent_eq]; omega
  refine ⟨?_, ?_, ?_⟩
  · by_cases he0 : float_exponent x32 = 0
    · have hcls : classify_ieee_float x32 = FpClass.FP_ZERO ∨
          classify_ieee_float x32 = FpClass.FP_SUBNORMAL := by
        unfold classify_ieee_float
        rw [if_neg (by omega), if_pos he0]
        by_cases hf : float_fraction x32 = 0
        · left; rw [if_pos hf]
        · right; rw [if_neg hf]
      rw [zero_canon_float x32 hcls] at e32
      injection e32 with e32
      subst e32
      exact ⟨0, rfl⟩
    · by_cases he255 : float_exponent x32 = 255
      · exfalso
        unfold Real48.Real48_float classify_ieee_float at e32
        rw [if_pos he255] at e32
        by_cases hf : float_fraction x32 = 0
        · simp [hf] at e32
        · simp [hf] at e32
      · exact ⟨x32, operator_float_encoded x32 h32 (by omega) (by omega) r32 e32⟩
  · by_cases he0 : float_exponent x32 = 0
    · by_cases hf : float_fraction x32 = 0
      · have hcls : classify_ieee_float x32 = FpClass.FP_ZERO := by
          unfold classify_ieee_float
          rw [if_neg (by omega), if_pos he0, if_pos hf]
        rw [test_float_zero x32 h32 he0 hf, hcls]
        exact ⟨fun _ => by decide, fun _ => rfl⟩
      · have hcls : classify_ieee_float x32 = FpClass.FP_SUBNORMAL := by
          unfold classify_ieee_float
          rw [if_neg (by omega), if_pos he0, if_neg hf]
        rw [test_float_subnormal x32 h32 he0 hf, hcls]
        exact ⟨fun h => Bool.noConfusion h, fun h => absurd rfl h⟩
    · by_cases he255 : float_exponent x32 = 255
      · exfalso
        unfold Real48.Real48_float classify_ieee_float at e32
        rw [if_pos he255] at e32
        by_cases hf : float_fraction x32 = 0
        · simp [hf] at e32
        · simp [hf] at e32
      · rw [test_float_normal x32 h32 (by omega) (by omega) r32 e32,
          classify_float_normal x32 (by omega) (by omega)]
        exact ⟨fun _ => by decide, fun _ => rfl⟩
  · rcases Real48_double_ok_cases x64 h64 r64 e64 with ⟨he0, -⟩ | ⟨hlo, hhi, -⟩
    · by_cases hf : double_fraction x64 = 0
      · have hcls : classify_ieee_double x64 = FpClass.FP_ZERO := by
          unfold classify_ieee_double
          rw [if_neg (by omega), if_pos he0, if_pos hf]
        rw [test_double_zero x64 h64 he0 hf, hcls, hf]
        exact ⟨fun _ => ⟨by decide, by decide⟩, fun _ => rfl⟩
      · have hcls : classify_ieee_double x64 = FpClass.FP_SUBNORMAL := by
          unfold classify_ieee_double
          rw [if_neg (by omega), if_pos he0, if_neg hf]
        rw [test_double_subnormal x64 h64 he0 hf, hcls]
        exact ⟨fun h => Bool.noConfusion h, fun h => absurd rfl h.1⟩
    · rw [test_double_normal x64 h64 (by omega) (by omega) r64 e64,
        classify_double_normal x64 (by omega) (by omega)]
      exact ⟨fun h => ⟨by decide, h⟩, fun h => h.2⟩

theorem harness_check_characterization_witness :
    test_float 0xBFC00000 = true ∧ test_double 0x3FF8000000000001 = true :=
  have h := harness_check_characterization 0xBFC00000 0x3FF8000000000001 (by decide) (by decide)
    ⟨⟨129, 2 ^ 38, 1⟩⟩ ⟨⟨129, 2 ^ 38, 0⟩⟩ (by rfl) (by rfl)
  ⟨h.2.1.mpr (by decide), h.2.2.mpr ⟨by decide, by decide⟩⟩

end math
